import Mathlib

/-!
Verification of the scheduling core of the
Automated-Course-Scheduling-Optimization repository.

The Python sources under `app/core` and `app/api` are shallowly embedded:
pure functions become Lean functions over explicit state, Python `dict`s
become associative lists with last-writer-wins update semantics, Python
floats are modelled as rationals, and the external OR-Tools CP-SAT engine
(explicitly an opaque external collaborator in the design) is a parameter.
-/

namespace Sched

/-! ## Data model (app/core/models.py)

Pydantic field constraints (`ge=1` and the like) are not baked into the
types; where a property needs them they appear as hypotheses.  String
enumerations (`day`, statuses, issue codes) are modelled as plain strings,
exactly the literals the source uses. -/

structure TimeSlot where
  id : String
  day : String
  start : String
  stop : String
  order : Nat
  deriving Repr, DecidableEq

structure Room where
  id : String
  name : String
  capacity : Nat
  features : List String
  deriving Repr, DecidableEq

structure Instructor where
  id : String
  name : String
  available_time_slots : List String
  preferred_time_slots : List String
  max_sessions_per_day : Option Nat
  deriving Repr, DecidableEq

structure Course where
  id : String
  name : String
  instructor_id : String
  enrollment : Nat
  sessions_per_week : Nat
  required_features : List String
  preferred_time_slots : List String
  allowed_time_slots : List String
  cluster_tag : Option String
  priority : Nat
  avoid_same_day_sessions : Bool
  deriving Repr, DecidableEq

structure ObjectiveWeights where
  instructor_preference : Nat
  room_efficiency : Nat
  cluster_compactness : Nat
  course_priority : Nat
  deriving Repr, DecidableEq

structure SolverOptions where
  time_limit_seconds : Nat
  num_workers : Nat
  enable_fallback : Bool
  objective_weights : ObjectiveWeights
  deriving Repr, DecidableEq

structure SchedulingInput where
  courses : List Course
  instructors : List Instructor
  rooms : List Room
  time_slots : List TimeSlot
  options : SolverOptions
  deriving Repr, DecidableEq

structure ScheduleAssignment where
  session_id : String
  course_id : String
  instructor_id : String
  room_id : String
  time_slot_id : String
  deriving Repr, DecidableEq

/-- Validation issue (models.py `ValidationIssue`).  The human-readable
`message` f-string and detail keys not consulted by any later computation
are omitted from the embedding; the structured detail entries that later
logic or the verified properties read are kept as typed fields
(`none` / `[]` when the source does not set them). -/
structure ValidationIssue where
  code : String
  level : String
  detail_session_id : Option String
  detail_session_ids : List String
  detail_instructor_id : Option String
  deriving Repr, DecidableEq

structure ValidationReport where
  valid : Bool
  issues : List ValidationIssue
  deriving Repr, DecidableEq

/-- Objective breakdown (objective.py returns `dict[str, float]` with
exactly these five keys; modelled as a record of rationals). -/
structure ObjectiveBreakdown where
  instructor_preference : ℚ
  room_efficiency : ℚ
  course_priority : ℚ
  cluster_compactness : ℚ
  total : ℚ
  deriving Repr, DecidableEq

structure ScheduleMetrics where
  sessions_required : Nat
  sessions_scheduled : Nat
  coverage_pct : ℚ
  room_utilization_pct : ℚ
  instructor_preference_pct : ℚ
  hard_violations : Nat
  objective_breakdown : ObjectiveBreakdown
  deriving Repr, DecidableEq

structure ScheduleResult where
  status : String
  solver : String
  runtime_seconds : ℚ
  objective_value : ℚ
  assignments : List ScheduleAssignment
  metrics : ScheduleMetrics
  notes : List String
  deriving Repr, DecidableEq

/-! ## Python dictionary machinery

The core builds dictionaries by comprehensions such as
`{room.id: room for room in data.rooms}`.  A later element with the same
key overwrites the stored value but keeps the key at its first-insertion
position.  `pyDict` reproduces that: it folds the list, replacing in
place on a key hit and appending otherwise.  `pyGet` is `dict.get`, and
iterating `dict.values()` is iterating the `pyDict` list itself. -/

def pyUpsert {α κ : Type} [DecidableEq κ] (key : α → κ) (acc : List α) (x : α) : List α :=
  if acc.any (fun y => key y = key x) then
    acc.map (fun y => if key y = key x then x else y)
  else
    acc ++ [x]

def pyDict {α κ : Type} [DecidableEq κ] (key : α → κ) (l : List α) : List α :=
  l.foldl (pyUpsert key) []

def pyGet {α κ : Type} [DecidableEq κ] (key : α → κ) (l : List α) (k : κ) : Option α :=
  (pyDict key l).find? (fun y => decide (key y = k))

/-! Basic facts about `pyDict` / `pyGet`. -/

def pyNatReprAux : Nat → Nat → List Char
  | 0, _ => []
  | fuel + 1, n =>
    if n < 10 then [Nat.digitChar n]
    else pyNatReprAux fuel (n / 10) ++ [Nat.digitChar (n % 10)]

def pyNatRepr (n : Nat) : List Char :=
  pyNatReprAux (n + 1) n

def sessionIdStr (courseId : String) (index : Nat) : String :=
  courseId ++ "::S" ++ String.mk (pyNatRepr index)

structure CourseSession where
  session_id : String
  course_id : String
  instructor_id : String
  enrollment : Nat
  priority : Nat
  cluster_tag : Option String
  required_features : List String
  preferred_time_slots : List String
  allowed_time_slots : List String
  avoid_same_day_sessions : Bool
  deriving Repr, DecidableEq

def mkCourseSession (course : Course) (index : Nat) : CourseSession :=
  { session_id := sessionIdStr course.id index
    course_id := course.id
    instructor_id := course.instructor_id
    enrollment := course.enrollment
    priority := course.priority
    cluster_tag := course.cluster_tag
    required_features := course.required_features
    preferred_time_slots := course.preferred_time_slots
    allowed_time_slots := course.allowed_time_slots
    avoid_same_day_sessions := course.avoid_same_day_sessions }

def expand_course_sessions (courses : List Course) : List CourseSession :=
  courses.foldl
    (fun sessions course =>
      sessions ++ (List.range' 1 course.sessions_per_week).map (mkCourseSession course))
    []

def utilizationPercent (enrollment capacity : Nat) : Nat :=
  100 * enrollment / capacity

/-- Python truthiness of an `Optional[str]`: `None` and `""` are falsy. -/
def isTruthy : Option String → Bool
  | none => false
  | some s => s ≠ ""

def assignment_local_score (session : CourseSession)
    (instructor_preferred_slots : List String) (room_capacity : Nat)
    (time_slot_id : String) (slot_day : String) (weights : ObjectiveWeights)
    (existing_cluster_days : List String) : ℤ :=
  let score0 : ℤ := 0
  let score1 :=
    if time_slot_id ∈ instructor_preferred_slots then
      score0 + 100 * weights.instructor_preference
    else score0
  let score2 :=
    if room_capacity > 0 then
      score1 + utilizationPercent session.enrollment room_capacity * weights.room_efficiency
    else score1
  let score3 :=
    if session.preferred_time_slots ≠ [] ∧ time_slot_id ∈ session.preferred_time_slots then
      score2 + session.priority * 20 * weights.course_priority
    else score2
  if isTruthy session.cluster_tag then
    if existing_cluster_days ≠ [] then
      if slot_day ∈ existing_cluster_days then
        score3 + 50 * weights.cluster_compactness
      else
        score3 - 100 * weights.cluster_compactness
    else score3
  else score3

/-- Python `set.add` on a set modelled as a list: membership-preserving insert. -/
def setAdd (s : List String) (x : String) : List String :=
  if x ∈ s then s else s ++ [x]

def clusterDaysAdd (m : List (String × List String)) (tag day : String) :
    List (String × List String) :=
  if m.any (fun p => p.1 = tag) then
    m.map (fun p => if p.1 = tag then (p.1, setAdd p.2 day) else p)
  else m ++ [(tag, [day])]

def countsAdd (m : List (String × Nat)) (tag : String) : List (String × Nat) :=
  if m.any (fun p => p.1 = tag) then
    m.map (fun p => if p.1 = tag then (p.1, p.2 + 1) else p)
  else m ++ [(tag, 1)]

def countsGet (m : List (String × Nat)) (tag : String) : Nat :=
  match m.find? (fun p => p.1 = tag) with
  | some p => p.2
  | none => 0

structure BreakdownState where
  instructor_component : ℤ
  room_component : ℤ
  priority_component : ℤ
  cluster_days : List (String × List String)
  cluster_counts : List (String × Nat)
  deriving Repr, DecidableEq

def breakdownStep (data : SchedulingInput) (weights : ObjectiveWeights)
    (st : BreakdownState) (assignment : ScheduleAssignment) : BreakdownState :=
  match pyGet CourseSession.session_id (expand_course_sessions data.courses) assignment.session_id,
        pyGet Instructor.id data.instructors assignment.instructor_id,
        pyGet Room.id data.rooms assignment.room_id,
        pyGet TimeSlot.id data.time_slots assignment.time_slot_id with
  | some session, some instructor, some room, some slot =>
    let ic :=
      if assignment.time_slot_id ∈ instructor.preferred_time_slots then
        st.instructor_component + 100 * weights.instructor_preference
      else st.instructor_component
    let rc := st.room_component +
      utilizationPercent session.enrollment room.capacity * weights.room_efficiency
    let pc :=
      if session.preferred_time_slots ≠ [] ∧
          assignment.time_slot_id ∈ session.preferred_time_slots then
        st.priority_component + session.priority * 20 * weights.course_priority
      else st.priority_component
    let cd :=
      match session.cluster_tag with
      | some tag => if tag ≠ "" then clusterDaysAdd st.cluster_days tag slot.day else st.cluster_days
      | none => st.cluster_days
    let cc :=
      match session.cluster_tag with
      | some tag => if tag ≠ "" then countsAdd st.cluster_counts tag else st.cluster_counts
      | none => st.cluster_counts
    { instructor_component := ic, room_component := rc, priority_component := pc,
      cluster_days := cd, cluster_counts := cc }
  | _, _, _, _ => st

def compute_objective_breakdown (data : SchedulingInput)
    (assignments : List ScheduleAssignment) (weights : ObjectiveWeights) : ObjectiveBreakdown :=
  let st := assignments.foldl (breakdownStep data weights) ⟨0, 0, 0, [], []⟩
  let cluster_penalty_units : ℤ :=
    ((st.cluster_days.filter (fun p => countsGet st.cluster_counts p.1 > 1)).map
      (fun p => (p.2.length : ℤ))).sum
  let cluster_component : ℤ := -(cluster_penalty_units * 100 * weights.cluster_compactness)
  let total := st.instructor_component + st.room_component + st.priority_component +
    cluster_component
  { instructor_preference := (st.instructor_component : ℚ)
    room_efficiency := (st.room_component : ℚ)
    course_priority := (st.priority_component : ℚ)
    cluster_compactness := (cluster_component : ℚ)
    total := (total : ℚ) }

/-! ## Heuristic fallback solver (app/core/heuristic.py)

The wall-clock runtime measured by `perf_counter` is an environment input
and is passed in as a parameter. -/

structure HeuristicSolveOutput where
  status : String
  assignments : List ScheduleAssignment
  notes : List String
  objective_breakdown : ObjectiveBreakdown
  runtime_seconds : ℚ
  deriving Repr, DecidableEq

def sortedSlots (data : SchedulingInput) : List TimeSlot :=
  data.time_slots.insertionSort (fun a b => a.order ≤ b.order)

def candidateOptions (data : SchedulingInput) (session : CourseSession) :
    List (String × String) :=
  match pyGet Instructor.id data.instructors session.instructor_id with
  | none => []
  | some instructor =>
    (pyDict Room.id data.rooms).flatMap (fun room =>
      if room.capacity < session.enrollment then []
      else if ¬ (∀ f ∈ session.required_features, f ∈ room.features) then []
      else
        (sortedSlots data).filterMap (fun slot =>
          if instructor.available_time_slots ≠ [] ∧
              slot.id ∉ instructor.available_time_slots then none
          else if session.allowed_time_slots ≠ [] ∧
              slot.id ∉ session.allowed_time_slots then none
          else some (room.id, slot.id)))

def buildFeasibleCandidates (data : SchedulingInput) (sessions : List CourseSession) :
    List (String × List (String × String)) :=
  sessions.foldl
    (fun acc session => pyUpsert Prod.fst acc (session.session_id, candidateOptions data session))
    []

def feasibleLookup (feasible : List (String × List (String × String))) (sid : String) :
    List (String × String) :=
  match feasible.find? (fun p => decide (p.1 = sid)) with
  | some p => p.2
  | none => []

structure HState where
  occupied_room_slot : List (String × String)
  occupied_instructor_slot : List (String × String)
  course_days_used : List (String × String)
  instructor_day_count : List (String × String)
  cluster_days_used : List (String × String)
  assignments : List ScheduleAssignment
  unscheduled : List String
  deriving Repr, DecidableEq

def initHState : HState := ⟨[], [], [], [], [], [], []⟩

/-- The `defaultdict(int)` day counter is modelled as an occurrence list:
the count for a key is `countP` of that key. -/
def dayCount (st : HState) (iid day : String) : Nat :=
  st.instructor_day_count.countP (fun p => p = (iid, day))

/-- Models `cluster_days_used.get(session.cluster_tag, set())`: the stored
day set of a (truthy) tag, empty for `None` or unknown tags. -/
def clusterDaysFor (st : HState) (tag : Option String) : List String :=
  match tag with
  | none => []
  | some t => (st.cluster_days_used.filter (fun p => decide (p.1 = t))).map (fun p => p.2)

/-- One candidate of the per-session scan (heuristic.py lines 97-122):
`none` when an exclusion filter rejects it, otherwise its local score. -/
def candidateCheck (data : SchedulingInput) (st : HState) (session : CourseSession)
    (instructor : Instructor) (c : String × String) : Option ℤ :=
  match pyGet TimeSlot.id data.time_slots c.2, pyGet Room.id data.rooms c.1 with
  | some slot, some room =>
    if (c.1, c.2) ∈ st.occupied_room_slot then none
    else if (session.instructor_id, c.2) ∈ st.occupied_instructor_slot then none
    else if session.avoid_same_day_sessions = true ∧
        (session.course_id, slot.day) ∈ st.course_days_used then none
    else if (match instructor.max_sessions_per_day with
             | some cap => decide (dayCount st session.instructor_id slot.day ≥ cap)
             | none => false) = true then none
    else some (assignment_local_score session instructor.preferred_time_slots room.capacity
      c.2 slot.day data.options.objective_weights (clusterDaysFor st session.cluster_tag))
  | _, _ => none

def scanCandidates (data : SchedulingInput) (st : HState) (session : CourseSession)
    (instructor : Instructor) (candidates : List (String × String)) :
    Option ((String × String) × ℤ) :=
  candidates.foldl
    (fun best c =>
      match candidateCheck data st session instructor c with
      | none => best
      | some score =>
        match best with
        | none => some (c, score)
        | some (b, bscore) => if score > bscore then some (c, score) else some (b, bscore))
    none

def heuristicStep (data : SchedulingInput)
    (feasible : List (String × List (String × String))) (st : HState)
    (session : CourseSession) : HState :=
  let candidates := feasibleLookup feasible session.session_id
  if candidates = [] then
    { st with unscheduled := st.unscheduled ++ [session.session_id] }
  else
    match pyGet Instructor.id data.instructors session.instructor_id with
    | none => { st with unscheduled := st.unscheduled ++ [session.session_id] }
    | some instructor =>
      match scanCandidates data st session instructor candidates with
      | none => { st with unscheduled := st.unscheduled ++ [session.session_id] }
      | some ((room_id, slot_id), _) =>
        match pyGet TimeSlot.id data.time_slots slot_id with
        | none => st
        | some slot =>
          { occupied_room_slot := st.occupied_room_slot ++ [(room_id, slot_id)]
            occupied_instructor_slot :=
              st.occupied_instructor_slot ++ [(session.instructor_id, slot_id)]
            course_days_used := st.course_days_used ++ [(session.course_id, slot.day)]
            instructor_day_count :=
              st.instructor_day_count ++ [(session.instructor_id, slot.day)]
            cluster_days_used :=
              match session.cluster_tag with
              | some tag =>
                if tag ≠ "" then st.cluster_days_used ++ [(tag, slot.day)]
                else st.cluster_days_used
              | none => st.cluster_days_used
            assignments := st.assignments ++
              [{ session_id := session.session_id, course_id := session.course_id,
                 instructor_id := session.instructor_id, room_id := room_id,
                 time_slot_id := slot_id }]
            unscheduled := st.unscheduled }

abbrev sessionKey (feasible : List (String × List (String × String)))
    (s : CourseSession) : Nat × ℤ :=
  ((feasibleLookup feasible s.session_id).length, -(s.priority : ℤ))

abbrev sessionLe (feasible : List (String × List (String × String)))
    (s t : CourseSession) : Prop :=
  (sessionKey feasible s).1 < (sessionKey feasible t).1 ∨
    ((sessionKey feasible s).1 = (sessionKey feasible t).1 ∧
      (sessionKey feasible s).2 ≤ (sessionKey feasible t).2)

instance (feasible : List (String × List (String × String))) :
    DecidableRel (sessionLe feasible) := fun _ _ => inferInstanceAs (Decidable (_ ∨ _))

def solve_with_heuristic (data : SchedulingInput) (runtime_seconds : ℚ) :
    HeuristicSolveOutput :=
  let sessions := expand_course_sessions data.courses
  let feasible := buildFeasibleCandidates data sessions
  let sorted_sessions := sessions.insertionSort (sessionLe feasible)
  let final := sorted_sessions.foldl (heuristicStep data feasible) initHState
  let objective_breakdown :=
    compute_objective_breakdown data final.assignments data.options.objective_weights
  let notes0 := ["Fallback heuristic solver executed.",
    "Sessions are scheduled greedily by constrainedness and local weighted score."]
  if final.unscheduled = [] then
    { status := "fallback", assignments := final.assignments, notes := notes0,
      objective_breakdown := objective_breakdown, runtime_seconds := runtime_seconds }
  else
    { status := "fallback_partial", assignments := final.assignments,
      notes := notes0 ++ [String.mk (pyNatRepr final.unscheduled.length) ++
        " session(s) were left unscheduled due to constraint overload."],
      objective_breakdown := objective_breakdown, runtime_seconds := runtime_seconds }

/-! ## Validation engine (app/core/validation.py) -/

def mkIssue (code : String) (sid : Option String) (sids : List String)
    (iid : Option String) : ValidationIssue :=
  { code := code, level := "error", detail_session_id := sid,
    detail_session_ids := sids, detail_instructor_id := iid }

/-- Issues contributed by one assignment record of the per-record pass
(validation.py lines 25-179), given the ids already seen. -/
def recordIssues (data : SchedulingInput) (seen : List String) (a : ScheduleAssignment) :
    List ValidationIssue :=
  match pyGet CourseSession.session_id (expand_course_sessions data.courses) a.session_id with
  | none => [mkIssue "UNKNOWN_SESSION" (some a.session_id) [] none]
  | some session =>
    if a.session_id ∈ seen then
      [mkIssue "DUPLICATE_SESSION_ASSIGNMENT" (some a.session_id) [] none]
    else
      (if a.course_id ≠ session.course_id then
        [mkIssue "COURSE_MISMATCH" (some a.session_id) [] none] else []) ++
      (if a.instructor_id ≠ session.instructor_id then
        [mkIssue "INSTRUCTOR_MISMATCH" (some a.session_id) [] none] else []) ++
      (match pyGet Room.id data.rooms a.room_id with
       | none => [mkIssue "UNKNOWN_ROOM" none [] none]
       | some room =>
         (if room.capacity < session.enrollment then
           [mkIssue "ROOM_CAPACITY_VIOLATION" (some session.session_id) [] none] else []) ++
         (if ¬ (∀ f ∈ session.required_features, f ∈ room.features) then
           [mkIssue "ROOM_FEATURE_VIOLATION" (some session.session_id) [] none] else [])) ++
      (match pyGet TimeSlot.id data.time_slots a.time_slot_id with
       | none => [mkIssue "UNKNOWN_TIME_SLOT" none [] none]
       | some slot =>
         (match pyGet Instructor.id data.instructors session.instructor_id with
          | none => [mkIssue "UNKNOWN_INSTRUCTOR" none [] (some session.instructor_id)]
          | some instructor =>
            if instructor.available_time_slots ≠ [] ∧
                slot.id ∉ instructor.available_time_slots then
              [mkIssue "INSTRUCTOR_AVAILABILITY_VIOLATION" (some session.session_id) []
                (some instructor.id)]
            else []) ++
         (if session.allowed_time_slots ≠ [] ∧ slot.id ∉ session.allowed_time_slots then
           [mkIssue "COURSE_TIME_WINDOW_VIOLATION" (some session.session_id) [] none]
          else []))

/-- A record is kept for the cross-record conflict pass unless its session
is unknown or already seen (the two `continue` branches). -/
def recordKept (data : SchedulingInput) (seen : List String) (a : ScheduleAssignment) : Bool :=
  match pyGet CourseSession.session_id (expand_course_sessions data.courses) a.session_id with
  | none => false
  | some _ => decide (a.session_id ∉ seen)

/-- `defaultdict(list)` keyed by a (resource, slot) pair: append the
session id to the entry of the key, creating it when absent. -/
def usageAdd (u : List ((String × String) × List String)) (k : String × String)
    (sid : String) : List ((String × String) × List String) :=
  if u.any (fun p => p.1 = k) then
    u.map (fun p => if p.1 = k then (p.1, p.2 ++ [sid]) else p)
  else u ++ [(k, [sid])]

structure VState where
  seen : List String
  room_slot_usage : List ((String × String) × List String)
  instructor_slot_usage : List ((String × String) × List String)
  issues : List ValidationIssue
  deriving Repr, DecidableEq

def validateStep (data : SchedulingInput) (st : VState) (a : ScheduleAssignment) : VState :=
  let issues := st.issues ++ recordIssues data st.seen a
  if recordKept data st.seen a then
    { seen := st.seen ++ [a.session_id]
      room_slot_usage := usageAdd st.room_slot_usage (a.room_id, a.time_slot_id) a.session_id
      instructor_slot_usage :=
        usageAdd st.instructor_slot_usage (a.instructor_id, a.time_slot_id) a.session_id
      issues := issues }
  else { st with issues := issues }

def roomConflictIssues (final : VState) : List ValidationIssue :=
  final.room_slot_usage.filterMap (fun p =>
    if p.2.length > 1 then some (mkIssue "ROOM_TIME_CONFLICT" none p.2 none) else none)

def instructorConflictIssues (final : VState) : List ValidationIssue :=
  final.instructor_slot_usage.filterMap (fun p =>
    if p.2.length > 1 then some (mkIssue "INSTRUCTOR_TIME_CONFLICT" none p.2 (some p.1.1))
    else none)

def missingSessionIssues (data : SchedulingInput) (final : VState) : List ValidationIssue :=
  ((((pyDict CourseSession.session_id (expand_course_sessions data.courses)).map
      CourseSession.session_id).filter
    (fun sid => sid ∉ final.seen)).insertionSort (fun a b => a ≤ b)).map (fun sid =>
      mkIssue "MISSING_SESSION_ASSIGNMENT" (some sid) [] none)

def validate_schedule (data : SchedulingInput) (assignments : List ScheduleAssignment) :
    ValidationReport :=
  let final := assignments.foldl (validateStep data) ⟨[], [], [], []⟩
  let issues := final.issues ++ roomConflictIssues final ++
    instructorConflictIssues final ++ missingSessionIssues data final
  { valid := issues.all (fun i => i.level ≠ "error"), issues := issues }

/-! ## Metrics aggregator (app/core/metrics.py)

Python `round(x, n)` on floats is modelled as rational rounding to `n`
decimal places (half-to-even float ties are modelled by `round`). -/

def pyRound (ndigits : Nat) (q : ℚ) : ℚ :=
  ((round (q * 10 ^ ndigits) : ℤ) : ℚ) / 10 ^ ndigits

def metricsStep (data : SchedulingInput) (acc : ℚ × Nat × Nat) (a : ScheduleAssignment) :
    ℚ × Nat × Nat :=
  let acc1 :=
    match pyGet CourseSession.session_id (expand_course_sessions data.courses) a.session_id,
          pyGet Room.id data.rooms a.room_id with
    | some session, some room =>
      if room.capacity > 0 then
        (acc.1 + (session.enrollment : ℚ) / (room.capacity : ℚ), acc.2.1 + 1, acc.2.2)
      else acc
    | _, _ => acc
  match pyGet Instructor.id data.instructors a.instructor_id with
  | some instructor =>
    if instructor.preferred_time_slots ≠ [] ∧
        a.time_slot_id ∈ instructor.preferred_time_slots then
      (acc1.1, acc1.2.1, acc1.2.2 + 1)
    else acc1
  | none => acc1

def build_metrics (data : SchedulingInput) (assignments : List ScheduleAssignment)
    (validation : ValidationReport) (objective_breakdown : ObjectiveBreakdown) :
    ScheduleMetrics :=
  let sessions := expand_course_sessions data.courses
  let sessions_required := sessions.length
  let sessions_scheduled := assignments.length
  let coverage_pct : ℚ :=
    if sessions_required ≠ 0 then
      (sessions_scheduled : ℚ) / (sessions_required : ℚ) * 100
    else 0
  let acc := assignments.foldl (metricsStep data) (0, 0, 0)
  let room_utilization_pct : ℚ :=
    if acc.2.1 ≠ 0 then acc.1 / (acc.2.1 : ℚ) * 100 else 0
  let instructor_preference_pct : ℚ :=
    if sessions_scheduled ≠ 0 then (acc.2.2 : ℚ) / (sessions_scheduled : ℚ) * 100 else 0
  let hard_violations := validation.issues.countP (fun i => i.level = "error")
  { sessions_required := sessions_required
    sessions_scheduled := sessions_scheduled
    coverage_pct := pyRound 2 coverage_pct
    room_utilization_pct := pyRound 2 room_utilization_pct
    instructor_preference_pct := pyRound 2 instructor_preference_pct
    hard_violations := hard_violations
    objective_breakdown := objective_breakdown }

/-! ## Scheduling orchestrator (app/core/solver.py)

The external CP-SAT engine is an opaque collaborator (spec section 4.2):
`_solve_with_cp_sat` is abstracted as a parameter returning its status
text, measured runtime, decoded assignments and notes.  Everything the
orchestrator does with that outcome is modelled from the source. -/

structure CpOutcome where
  status : String
  runtime : ℚ
  assignments : List ScheduleAssignment
  notes : List String
  deriving Repr, DecidableEq

def buildResult (data : SchedulingInput) (status solver_name : String)
    (runtime_seconds : ℚ) (assignments : List ScheduleAssignment) (notes : List String) :
    ScheduleResult × ValidationReport :=
  let validation := validate_schedule data assignments
  let objective_breakdown :=
    compute_objective_breakdown data assignments data.options.objective_weights
  let metrics := build_metrics data assignments validation objective_breakdown
  ({ status := status
     solver := solver_name
     runtime_seconds := pyRound 4 runtime_seconds
     objective_value := objective_breakdown.total
     assignments := assignments.insertionSort (fun a b => a.session_id ≤ b.session_id)
     metrics := metrics
     notes := notes }, validation)

def solve_schedule (cpSat : SchedulingInput → CpOutcome) (heuristicRuntime : ℚ)
    (data : SchedulingInput) (solver_mode : String) : ScheduleResult × ValidationReport :=
  if solver_mode = "heuristic" then
    let h := solve_with_heuristic data heuristicRuntime
    buildResult data h.status "heuristic" h.runtime_seconds h.assignments h.notes
  else
    let cp := cpSat data
    if cp.status = "optimal" ∨ cp.status = "feasible" then
      buildResult data cp.status "cp_sat" cp.runtime cp.assignments cp.notes
    else if solver_mode = "auto" ∧ data.options.enable_fallback = true then
      let h := solve_with_heuristic data heuristicRuntime
      let notes := ["CP-SAT status: " ++ cp.status ++ ". Triggering fallback heuristic."] ++
        cp.notes ++ h.notes
      buildResult data h.status "heuristic" (cp.runtime + h.runtime_seconds)
        h.assignments notes
    else
      buildResult data cp.status "cp_sat" cp.runtime cp.assignments cp.notes

/-! ## Scenario comparison (app/api/main.py `compare`)

The per-scenario solves go through `solve_schedule`; the ranking operates
on the collected `ScenarioResult` list (main.py lines 124-134). -/

structure ScenarioResult where
  name : String
  result : ScheduleResult
  validation : ValidationReport
  deriving Repr, DecidableEq

/-- The Python sort key `(hard_violations, -objective_value, -coverage_pct)`
compared ascending lexicographically. -/
def scenarioKey (s : ScenarioResult) : Nat × ℚ × ℚ :=
  (s.result.metrics.hard_violations, -s.result.objective_value,
    -s.result.metrics.coverage_pct)

def scenarioLe (x y : ScenarioResult) : Prop :=
  (scenarioKey x).1 < (scenarioKey y).1 ∨
    ((scenarioKey x).1 = (scenarioKey y).1 ∧
      ((scenarioKey x).2.1 < (scenarioKey y).2.1 ∨
        ((scenarioKey x).2.1 = (scenarioKey y).2.1 ∧
          (scenarioKey x).2.2 ≤ (scenarioKey y).2.2)))

instance : DecidableRel scenarioLe := fun _ _ => inferInstanceAs (Decidable (_ ∨ _))

def compareBestScenario (scenario_results : List ScenarioResult) : Option String :=
  if scenario_results = [] then none
  else ((scenario_results.insertionSort scenarioLe).head?).map ScenarioResult.name

/-! ## Supporting lemmas -/

def c3DupCourseA : Course :=
  ⟨"C", "first", "I1", 10, 1, [], [], [], none, 5, true⟩

def c3DupCourseB : Course :=
  ⟨"C", "second", "I2", 20, 1, [], [], [], none, 5, true⟩

def c3PlainCourse : Course :=
  ⟨"CS101", "Intro", "I1", 25, 3, [], [], [], none, 5, true⟩

instance : IsTotal ScenarioResult scenarioLe := by
  constructor
  intro x y
  unfold scenarioLe
  rcases lt_trichotomy (scenarioKey x).1 (scenarioKey y).1 with h | h | h
  · exact Or.inl (Or.inl h)
  · rcases lt_trichotomy (scenarioKey x).2.1 (scenarioKey y).2.1 with h2 | h2 | h2
    · exact Or.inl (Or.inr ⟨h, Or.inl h2⟩)
    · rcases le_total (scenarioKey x).2.2 (scenarioKey y).2.2 with h3 | h3
      · exact Or.inl (Or.inr ⟨h, Or.inr ⟨h2, h3⟩⟩)
      · exact Or.inr (Or.inr ⟨h.symm, Or.inr ⟨h2.symm, h3⟩⟩)
    · exact Or.inr (Or.inr ⟨h.symm, Or.inl h2⟩)
  · exact Or.inr (Or.inl h)

instance : IsTrans ScenarioResult scenarioLe := by
  constructor
  intro x y z hxy hyz
  unfold scenarioLe at hxy hyz ⊢
  rcases hxy with h1 | ⟨he1, h1⟩
  · rcases hyz with h2 | ⟨he2, _⟩
    · exact Or.inl (h1.trans h2)
    · exact Or.inl (he2 ▸ h1)
  · rcases hyz with h2 | ⟨he2, h2⟩
    · exact Or.inl (he1 ▸ h2)
    · refine Or.inr ⟨he1.trans he2, ?_⟩
      rcases h1 with h1 | ⟨hf1, h1⟩
      · rcases h2 with h2 | ⟨hf2, _⟩
        · exact Or.inl (h1.trans h2)
        · exact Or.inl (hf2 ▸ h1)
      · rcases h2 with h2 | ⟨hf2, h2⟩
        · exact Or.inl (hf1 ▸ h2)
        · exact Or.inr ⟨hf1.trans hf2, h1.trans h2⟩

def c7MetricsA : ScheduleMetrics :=
  ⟨2, 2, 100, 100, 0, 0, ⟨0, 100, 0, 0, 100⟩⟩

def c7MetricsB : ScheduleMetrics :=
  ⟨2, 2, 100, 100, 0, 1, ⟨0, 500, 0, 0, 500⟩⟩

def c7ScenarioA : ScenarioResult :=
  ⟨"A", ⟨"optimal", "cp_sat", 1, 100, [], c7MetricsA, []⟩, ⟨true, []⟩⟩

def c7ScenarioB : ScenarioResult :=
  ⟨"B", ⟨"optimal", "cp_sat", 1, 500, [], c7MetricsB, []⟩, ⟨true, []⟩⟩

/-- Eligibility for the room-utilization mean as the claim states it: the
assigned room exists and has positive capacity. -/
def c8Eligible (data : SchedulingInput) (a : ScheduleAssignment) : Bool :=
  match pyGet Room.id data.rooms a.room_id with
  | some room => decide (0 < room.capacity)
  | none => false

def c8UtilValue (data : SchedulingInput) (a : ScheduleAssignment) : ℚ :=
  match pyGet CourseSession.session_id (expand_course_sessions data.courses) a.session_id,
        pyGet Room.id data.rooms a.room_id with
  | some s, some room => (s.enrollment : ℚ) / (room.capacity : ℚ)
  | _, _ => 0

/-- The claim's notion of a preference hit: the assignment's slot is on the
assigned instructor's preferred list. -/
def c8PrefHit (data : SchedulingInput) (a : ScheduleAssignment) : Bool :=
  match pyGet Instructor.id data.instructors a.instructor_id with
  | some instructor => a.time_slot_id ∈ instructor.preferred_time_slots
  | none => false

def c8Slot : TimeSlot := ⟨"T1", "Mon", "09:00", "10:15", 0⟩

def c8Room : Room := ⟨"R1", "Room 1", 40, []⟩

def c8Instructor : Instructor := ⟨"I1", "Ada", [], ["T1"], none⟩

def c8Course : Course := ⟨"CS1", "Intro", "I1", 30, 1, [], [], [], none, 5, true⟩

def c8Data : SchedulingInput :=
  ⟨[c8Course], [c8Instructor], [c8Room], [c8Slot], ⟨15, 8, true, ⟨5, 3, 4, 2⟩⟩⟩

def c8Assignment : ScheduleAssignment := ⟨"CS1::S1", "CS1", "I1", "R1", "T1"⟩

/-! ## Claim C6 -/

def c6Course : Course := ⟨"C1", "c", "GHOST", 10, 1, [], [], [], none, 5, true⟩

def c6Data : SchedulingInput :=
  ⟨[c6Course], [], [⟨"R1", "r", 30, []⟩], [⟨"T1", "Mon", "09:00", "10:15", 0⟩],
    ⟨15, 8, true, ⟨5, 3, 4, 2⟩⟩⟩

def c6Assignment : ScheduleAssignment := ⟨"C1::S1", "C1", "GHOST", "R1", "BAD"⟩

def c6GoodSlotAssignment : ScheduleAssignment := ⟨"C1::S1", "C1", "GHOST", "R1", "T1"⟩

def conflictCode (i : ValidationIssue) : Bool :=
  decide (i.code = "ROOM_TIME_CONFLICT" ∨ i.code = "INSTRUCTOR_TIME_CONFLICT")

def c10CourseA : Course := ⟨"C1", "a", "I1", 10, 1, [], [], [], none, 5, true⟩

def c10CourseB : Course := ⟨"C2", "b", "I1", 10, 1, [], [], [], none, 5, true⟩

def c10Data : SchedulingInput :=
  ⟨[c10CourseA, c10CourseB], [⟨"I1", "Ada", [], [], none⟩],
    [⟨"R1", "r", 30, []⟩, ⟨"R2", "r2", 30, []⟩],
    [⟨"T1", "Mon", "09:00", "10:15", 0⟩, ⟨"T2", "Tue", "09:00", "10:15", 1⟩],
    ⟨15, 8, true, ⟨5, 3, 4, 2⟩⟩⟩

def c10A1 : ScheduleAssignment := ⟨"C1::S1", "C1", "I1", "R1", "T1"⟩

def c10A2 : ScheduleAssignment := ⟨"C2::S1", "C2", "I2", "R1", "T1"⟩

def c10A3 : ScheduleAssignment := ⟨"C1::S1", "C1", "I1", "R2", "T2"⟩

/-- The best-so-far update of the candidate scan (strictly greater score
replaces the incumbent). -/
def scanPick (best : Option ((String × String) × ℤ)) (y : (String × String) × ℤ) :
    Option ((String × String) × ℤ) :=
  match best with
  | none => some y
  | some (b, bscore) => if y.2 > bscore then some y else some (b, bscore)

def c5Instructor : Instructor := ⟨"I1", "Ada", [], [], none⟩

def c5Course : Course := ⟨"C1", "c", "I1", 10, 1, [], [], [], none, 5, true⟩

/-- The two rooms are listed out of id order: `R2` precedes `R1`. -/
def c5Data : SchedulingInput :=
  ⟨[c5Course], [c5Instructor], [⟨"R2", "x", 100, []⟩, ⟨"R1", "y", 100, []⟩],
    [⟨"T1", "Mon", "09:00", "10:15", 0⟩], ⟨15, 8, true, ⟨5, 3, 4, 2⟩⟩⟩

def c5Session : CourseSession := mkCourseSession c5Course 1

/-- The four issue codes the solver's own constraints must never trigger. -/
def badSolverCode (i : ValidationIssue) : Bool :=
  decide (i.code = "ROOM_TIME_CONFLICT" ∨ i.code = "INSTRUCTOR_TIME_CONFLICT" ∨
    i.code = "ROOM_CAPACITY_VIOLATION" ∨ i.code = "ROOM_FEATURE_VIOLATION")

/-- An assignment record whose session resolves and whose room satisfies
capacity and required features for that session. -/
def recordFeasible (data : SchedulingInput) (a : ScheduleAssignment) : Prop :=
  ∃ s, pyGet CourseSession.session_id (expand_course_sessions data.courses)
      a.session_id = some s ∧
    ∃ room, pyGet Room.id data.rooms a.room_id = some room ∧
      s.enrollment ≤ room.capacity ∧ ∀ f ∈ s.required_features, f ∈ room.features

/-- Invariant of the greedy pass: every placed assignment is feasible for
the session stored under its id, and the placed (room, slot) and
(instructor, slot) pairs are pairwise distinct and recorded in the
occupied sets. -/
def HInv (data : SchedulingInput) (st : HState) : Prop :=
  (∀ a ∈ st.assignments, recordFeasible data a) ∧
  ((st.assignments.map (fun a => (a.room_id, a.time_slot_id))).Nodup ∧
    ∀ a ∈ st.assignments, (a.room_id, a.time_slot_id) ∈ st.occupied_room_slot) ∧
  ((st.assignments.map (fun a => (a.instructor_id, a.time_slot_id))).Nodup ∧
    ∀ a ∈ st.assignments, (a.instructor_id, a.time_slot_id) ∈ st.occupied_instructor_slot)

def c2CpSat : SchedulingInput → CpOutcome :=
  fun _ => ⟨"infeasible", 1/2, [], ["No feasible assignment exists."]⟩

def c2Data : SchedulingInput := ⟨[], [], [], [], ⟨15, 8, true, ⟨5, 3, 4, 2⟩⟩⟩

def clusterSessionCount (sessions : List CourseSession) (tag : String) : Nat :=
  sessions.countP (fun s => decide (s.cluster_tag = some tag ∧ tag ≠ ""))

/-- The (truthy tag, day) pair of a chosen triple, via the id lookups. -/
def tagDayOf (data : SchedulingInput) (a : ScheduleAssignment) :
    Option (String × String) :=
  match pyGet CourseSession.session_id (expand_course_sessions data.courses) a.session_id,
        pyGet TimeSlot.id data.time_slots a.time_slot_id with
  | some s, some slot =>
    match s.cluster_tag with
    | some tag => if tag ≠ "" then some (tag, slot.day) else none
    | none => none
  | _, _ => none

/-- A chosen triple's (tag, day) pair when the tag has a day-used
indicator in the model (more than one session carries it). -/
def cpClusterPair (data : SchedulingInput) (a : ScheduleAssignment) :
    Option (String × String) :=
  match tagDayOf data a with
  | some (t, d) =>
    if clusterSessionCount (expand_course_sessions data.courses) t > 1 then some (t, d)
    else none
  | none => none

def cpIpTerm (data : SchedulingInput) (w : ObjectiveWeights) (a : ScheduleAssignment) : ℤ :=
  match pyGet CourseSession.session_id (expand_course_sessions data.courses) a.session_id with
  | some s =>
    match pyGet Instructor.id data.instructors s.instructor_id with
    | some instructor =>
      if a.time_slot_id ∈ instructor.preferred_time_slots then
        100 * w.instructor_preference
      else 0
    | none => 0
  | none => 0

def cpReTerm (data : SchedulingInput) (w : ObjectiveWeights) (a : ScheduleAssignment) : ℤ :=
  match pyGet CourseSession.session_id (expand_course_sessions data.courses) a.session_id,
        pyGet Room.id data.rooms a.room_id with
  | some s, some room => utilizationPercent s.enrollment room.capacity * w.room_efficiency
  | _, _ => 0

def cpPrTerm (data : SchedulingInput) (w : ObjectiveWeights) (a : ScheduleAssignment) : ℤ :=
  match pyGet CourseSession.session_id (expand_course_sessions data.courses) a.session_id with
  | some s =>
    if s.preferred_time_slots ≠ [] ∧ a.time_slot_id ∈ s.preferred_time_slots then
      s.priority * 20 * w.course_priority
    else 0
  | none => 0

def cpObjectiveComponents (data : SchedulingInput) (w : ObjectiveWeights)
    (sol : List ScheduleAssignment) : ℤ × ℤ × ℤ × ℤ :=
  ((sol.map (cpIpTerm data w)).sum,
   (sol.map (cpReTerm data w)).sum,
   (sol.map (cpPrTerm data w)).sum,
   -(100 * w.cluster_compactness *
     ((sol.filterMap (cpClusterPair data)).toFinset.card : ℤ)))

/-- A solution record whose ids resolve and whose redundant instructor
copy matches the session (the shape of a decoded exact-model triple). -/
def c4Resolvable (data : SchedulingInput) (a : ScheduleAssignment) : Prop :=
  ∃ s, pyGet CourseSession.session_id (expand_course_sessions data.courses)
      a.session_id = some s ∧
    a.instructor_id = s.instructor_id ∧
    (pyGet Instructor.id data.instructors s.instructor_id).isSome ∧
    (pyGet Room.id data.rooms a.room_id).isSome ∧
    (pyGet TimeSlot.id data.time_slots a.time_slot_id).isSome

def daysOf (cd : List (String × List String)) (t : String) : List String :=
  match cd.find? (fun p => decide (p.1 = t)) with
  | some p => p.2
  | none => []

/-- The flattened (tag, day) pairs of the penalised cluster-day entries:
one pair per day in each entry whose tag is carried by more than one
scheduled session. -/
def clusterFlat (cd : List (String × List String)) (cc : List (String × Nat)) :
    List (String × String) :=
  (cd.filter (fun p => countsGet cc p.1 > 1)).flatMap
    (fun p => p.2.map (fun d => (p.1, d)))

def c4SlotM : TimeSlot := ⟨"T1", "Mon", "09:00", "10:15", 0⟩

def c4SlotT : TimeSlot := ⟨"T2", "Tue", "09:00", "10:15", 1⟩

def c4Room : Room := ⟨"R1", "Room 1", 40, []⟩

def c4Instructor : Instructor := ⟨"I1", "Ada", [], ["T1"], none⟩

def c4CourseA : Course := ⟨"CA", "a", "I1", 30, 1, [], [], [], some "T", 5, true⟩

def c4CourseB : Course := ⟨"CB", "b", "I1", 20, 1, [], ["T2"], [], some "T", 3, true⟩

def c4W : ObjectiveWeights := ⟨5, 3, 4, 2⟩

def c4Data : SchedulingInput :=
  ⟨[c4CourseA, c4CourseB], [c4Instructor], [c4Room], [c4SlotM, c4SlotT],
    ⟨15, 8, true, c4W⟩⟩

def c4Sol : List ScheduleAssignment :=
  [⟨"CA::S1", "CA", "I1", "R1", "T1"⟩, ⟨"CB::S1", "CB", "I1", "R1", "T2"⟩]

theorem pyUpsert_mem {α κ : Type} [DecidableEq κ] (key : α → κ)
    (acc : List α) (x y : α) (hy : y ∈ pyUpsert key acc x) : y ∈ acc ∨ y = x := by
  unfold pyUpsert at hy
  split at hy
  · simp only [List.mem_map] at hy
    obtain ⟨z, hz, hzy⟩ := hy
    by_cases hk : key z = key x
    · right; simpa [hk] using hzy.symm
    · left; simp only [hk, if_false] at hzy; exact hzy ▸ hz
  · simp only [List.mem_append, List.mem_singleton] at hy
    exact hy

theorem foldl_pyUpsert_mem {α κ : Type} [DecidableEq κ] (key : α → κ) :
    ∀ (l acc : List α), ∀ y ∈ l.foldl (pyUpsert key) acc, y ∈ acc ∨ y ∈ l := by
  intro l
  induction l with
  | nil => intro acc y hy; exact Or.inl hy
  | cons a t ih =>
    intro acc y hy
    rcases ih (pyUpsert key acc a) y hy with h | h
    · rcases pyUpsert_mem key acc a y h with h2 | h2
      · exact Or.inl h2
      · exact Or.inr (h2 ▸ List.mem_cons_self a t)
    · exact Or.inr (List.mem_cons_of_mem a h)

theorem pyDict_sub {α κ : Type} [DecidableEq κ] (key : α → κ) (l : List α) :
    ∀ y ∈ pyDict key l, y ∈ l := by
  intro y hy
  rcases foldl_pyUpsert_mem key l [] y hy with h | h
  · exact absurd h (List.not_mem_nil y)
  · exact h

theorem pyGet_mem {α κ : Type} [DecidableEq κ] (key : α → κ) (l : List α) (k : κ) (x : α)
    (h : pyGet key l k = some x) : x ∈ l ∧ key x = k := by
  unfold pyGet at h
  have hmem := List.mem_of_find?_eq_some h
  have hkey := List.find?_some h
  refine ⟨pyDict_sub key l x hmem, ?_⟩
  exact of_decide_eq_true hkey

theorem pyUpsert_map_key {α κ : Type} [DecidableEq κ] (key : α → κ) (acc : List α) (x : α) :
    (pyUpsert key acc x).map key =
      if acc.any (fun y => key y = key x) then acc.map key else acc.map key ++ [key x] := by
  unfold pyUpsert
  split
  · next h =>
    simp only [h, if_true, List.map_map]
    apply List.map_congr_left
    intro a _
    by_cases hk : key a = key x
    · simp [hk]
    · simp [hk]
  · next h => simp [h]

theorem pyDict_keys_nodup {α κ : Type} [DecidableEq κ] (key : α → κ) (l : List α) :
    ((pyDict key l).map key).Nodup := by
  suffices h : ∀ (l acc : List α), ((acc.map key).Nodup) →
      ((l.foldl (pyUpsert key) acc).map key).Nodup from h l [] (by simp)
  intro l
  induction l with
  | nil => intro acc h; exact h
  | cons a t ih =>
    intro acc h
    refine ih (pyUpsert key acc a) ?_
    rw [pyUpsert_map_key]
    split
    · exact h
    · next hna =>
      rw [List.nodup_append]
      refine ⟨h, List.nodup_singleton _, ?_⟩
      intro k hk hk2
      simp only [List.mem_singleton] at hk2
      simp only [List.mem_map] at hk
      obtain ⟨y, hy, hky⟩ := hk
      exact hna (List.any_eq_true.mpr ⟨y, hy, by simp [hky, hk2]⟩)

theorem pyGet_of_mem_pyDict {α κ : Type} [DecidableEq κ] (key : α → κ) (l : List α) (x : α)
    (hx : x ∈ pyDict key l) : pyGet key l (key x) = some x := by
  unfold pyGet
  have hsome : ((pyDict key l).find? (fun y => decide (key y = key x))).isSome := by
    rw [List.find?_isSome]
    exact ⟨x, hx, by simp⟩
  obtain ⟨z, hz⟩ := Option.isSome_iff_exists.mp hsome
  have hzmem := List.mem_of_find?_eq_some hz
  have hzkey : key z = key x := by
    have h2 := List.find?_some hz
    simpa using h2
  have hnodup := pyDict_keys_nodup key l
  have hzx : z = x := List.inj_on_of_nodup_map hnodup hzmem hx hzkey
  rw [hz, hzx]

theorem key_mem_pyUpsert_of_mem {α κ : Type} [DecidableEq κ] (key : α → κ)
    (acc : List α) (x : α) (k : κ) (h : k ∈ acc.map key) :
    k ∈ (pyUpsert key acc x).map key := by
  rw [pyUpsert_map_key]
  split
  · exact h
  · exact List.mem_append.mpr (Or.inl h)

theorem key_mem_pyUpsert_self {α κ : Type} [DecidableEq κ] (key : α → κ)
    (acc : List α) (x : α) : key x ∈ (pyUpsert key acc x).map key := by
  rw [pyUpsert_map_key]
  split
  · next h =>
    rcases List.any_eq_true.mp h with ⟨y, hy, hky⟩
    have : key y = key x := of_decide_eq_true hky
    exact this ▸ List.mem_map.mpr ⟨y, hy, rfl⟩
  · exact List.mem_append.mpr (Or.inr (List.mem_singleton.mpr rfl))

theorem key_mem_pyDict_of_mem {α κ : Type} [DecidableEq κ] (key : α → κ) (l : List α) (x : α)
    (hx : x ∈ l) : key x ∈ (pyDict key l).map key := by
  suffices h : ∀ (l acc : List α), (key x ∈ acc.map key ∨ x ∈ l) →
      key x ∈ (l.foldl (pyUpsert key) acc).map key from h l [] (Or.inr hx)
  intro l
  induction l with
  | nil =>
    intro acc h
    rcases h with h | h
    · exact h
    · exact absurd h (List.not_mem_nil x)
  | cons a t ih =>
    intro acc h
    rcases h with h | h
    · exact ih (pyUpsert key acc a) (Or.inl (key_mem_pyUpsert_of_mem key acc a _ h))
    · rcases List.mem_cons.mp h with h | h
      · exact ih (pyUpsert key acc a) (Or.inl (h ▸ key_mem_pyUpsert_self key acc a))
      · exact ih (pyUpsert key acc a) (Or.inr h)

theorem pyGet_isSome_of_mem {α κ : Type} [DecidableEq κ] (key : α → κ) (l : List α) (x : α)
    (hx : x ∈ l) : ∃ z, pyGet key l (key x) = some z ∧ z ∈ l ∧ key z = key x := by
  have hk := key_mem_pyDict_of_mem key l x hx
  rcases List.mem_map.mp hk with ⟨z, hz, hkz⟩
  have := pyGet_of_mem_pyDict key l z hz
  exact ⟨z, by rw [hkz] at this; exact this, pyDict_sub key l z hz, hkz⟩

/-! ## Session expansion (app/core/session_utils.py)

`expand_course_sessions` turns every course into `sessions_per_week`
sessions with ids `f"{course.id}::S{index}"`, `index` running from 1.
Python `str(int)` on the index is modelled by `pyNatRepr` (decimal,
most-significant digit first). -/

theorem pyNatReprAux_spec : ∀ (fuel n : Nat), n < fuel →
    pyNatReprAux fuel n =
      if n = 0 then ['0'] else ((Nat.digits 10 n).map Nat.digitChar).reverse := by
  intro fuel
  induction fuel with
  | zero => intro n hn; exact absurd hn (Nat.not_lt_zero n)
  | succ f ih =>
    intro n hn
    by_cases h0 : n = 0
    · subst h0
      simp only [pyNatReprAux, if_pos (by norm_num : (0:ℕ) < 10), if_true]
      decide
    · simp only [h0, if_false]
      by_cases hlt : n < 10
      · have hdig : Nat.digits 10 n = [n] := by
          rw [Nat.digits_def' (by norm_num : (1:ℕ) < 10) (Nat.pos_of_ne_zero h0)]
          have hmod : n % 10 = n := Nat.mod_eq_of_lt hlt
          have hdiv : n / 10 = 0 := Nat.div_eq_of_lt hlt
          rw [hmod, hdiv]
          simp
        rw [hdig]
        simp [pyNatReprAux, hlt]
      · have hrec : pyNatReprAux (f + 1) n =
            pyNatReprAux f (n / 10) ++ [Nat.digitChar (n % 10)] := by
          simp [pyNatReprAux, hlt]
        rw [hrec]
        have hdivlt : n / 10 < f := by
          have h1 : n / 10 < n := Nat.div_lt_self (Nat.pos_of_ne_zero h0) (by norm_num)
          omega
        have hdiv0 : n / 10 ≠ 0 :=
          Nat.pos_iff_ne_zero.mp (Nat.div_pos (le_of_not_lt hlt) (by norm_num))
        rw [ih (n / 10) hdivlt]
        simp only [hdiv0, if_false]
        rw [Nat.digits_def' (by norm_num : (1:ℕ) < 10) (Nat.pos_of_ne_zero h0)]
        simp

theorem pyNatRepr_eq (n : Nat) :
    pyNatRepr n =
      if n = 0 then ['0'] else ((Nat.digits 10 n).map Nat.digitChar).reverse :=
  pyNatReprAux_spec (n + 1) n (Nat.lt_succ_self n)

theorem foldl_append_eq_flatMap {α β : Type} (f : α → List β) :
    ∀ (l : List α) (acc : List β),
      l.foldl (fun a c => a ++ f c) acc = acc ++ l.flatMap f := by
  intro l
  induction l with
  | nil => intro acc; simp
  | cons a t ih => intro acc; simp [ih, List.flatMap_cons]

theorem expand_eq_flatMap (courses : List Course) :
    expand_course_sessions courses =
      courses.flatMap
        (fun course => (List.range' 1 course.sessions_per_week).map (mkCourseSession course)) := by
  unfold expand_course_sessions
  rw [foldl_append_eq_flatMap]
  simp

/-! Digit strings: every character of `pyNatRepr n` is a decimal digit,
in particular never a colon, and `pyNatRepr` is injective. -/

theorem digitChar_inj_lt10 : ∀ d < 10, ∀ e < 10, Nat.digitChar d = Nat.digitChar e → d = e := by
  decide

theorem digitChar_ne_colon : ∀ d < 10, Nat.digitChar d ≠ ':' := by decide

theorem pyNatRepr_no_colon (n : Nat) : ∀ c ∈ pyNatRepr n, c ≠ ':' := by
  intro c hc
  rw [pyNatRepr_eq] at hc
  split at hc
  · simp only [List.mem_singleton] at hc
    subst hc; decide
  · rw [List.mem_reverse, List.mem_map] at hc
    obtain ⟨d, hd, hdc⟩ := hc
    have hlt : d < 10 := Nat.digits_lt_base (by norm_num) hd
    exact hdc ▸ digitChar_ne_colon d hlt

theorem map_digitChar_inj : ∀ (l₁ l₂ : List Nat),
    (∀ d ∈ l₁, d < 10) → (∀ d ∈ l₂, d < 10) →
    l₁.map Nat.digitChar = l₂.map Nat.digitChar → l₁ = l₂ := by
  intro l₁
  induction l₁ with
  | nil =>
    intro l₂ _ _ h
    cases l₂ with
    | nil => rfl
    | cons b t => simp at h
  | cons a t ih =>
    intro l₂ h1 h2 h
    cases l₂ with
    | nil => simp at h
    | cons b t2 =>
      simp only [List.map_cons, List.cons.injEq] at h
      have ha : a = b :=
        digitChar_inj_lt10 a (h1 a (List.mem_cons_self a t)) b
          (h2 b (List.mem_cons_self b t2)) h.1
      have ht : t = t2 :=
        ih t2 (fun d hd => h1 d (List.mem_cons_of_mem a hd))
          (fun d hd => h2 d (List.mem_cons_of_mem b hd)) h.2
      rw [ha, ht]

theorem pyNatRepr_zero_case (n : Nat) (h : pyNatRepr n = ['0']) : n = 0 := by
  by_contra hn
  rw [pyNatRepr_eq] at h
  simp only [hn, if_false] at h
  have h2 : (Nat.digits 10 n).map Nat.digitChar = ['0'] := by
    have := congrArg List.reverse h
    simpa using this
  have h3 : Nat.digits 10 n = [0] := by
    cases hd : Nat.digits 10 n with
    | nil => rw [hd] at h2; simp at h2
    | cons d t =>
      rw [hd] at h2
      simp only [List.map_cons, List.cons.injEq] at h2
      have ht : t = [] := List.map_eq_nil_iff.mp h2.2
      have hdlt : d < 10 := Nat.digits_lt_base (by norm_num) (hd ▸ List.mem_cons_self d t)
      have hd0 : d = 0 := digitChar_inj_lt10 d hdlt 0 (by norm_num) (by simpa using h2.1)
      rw [ht, hd0]
  have := congrArg (Nat.ofDigits 10) h3
  rw [Nat.ofDigits_digits] at this
  simp [Nat.ofDigits] at this
  exact hn this

theorem pyNatRepr_inj : ∀ (m n : Nat), pyNatRepr m = pyNatRepr n → m = n := by
  intro m n h
  by_cases hm : m = 0
  · subst hm
    have h0 : pyNatRepr 0 = ['0'] := by rw [pyNatRepr_eq]; simp
    exact (pyNatRepr_zero_case n (by rw [← h, h0])).symm
  · by_cases hn : n = 0
    · subst hn
      have h0 : pyNatRepr 0 = ['0'] := by rw [pyNatRepr_eq]; simp
      exact absurd (pyNatRepr_zero_case m (by rw [h, h0])) hm
    · rw [pyNatRepr_eq, pyNatRepr_eq] at h
      simp only [hm, hn, if_false] at h
      have h2 := List.reverse_injective h
      have h3 := map_digitChar_inj _ _
        (fun d hd => Nat.digits_lt_base (by norm_num) hd)
        (fun d hd => Nat.digits_lt_base (by norm_num) hd) h2
      have h4 := congrArg (Nat.ofDigits 10) h3
      rwa [Nat.ofDigits_digits, Nat.ofDigits_digits] at h4

/-! Splitting a session id at the `"::S"` separator is unambiguous because
the digit tail contains no colon, so `sessionIdStr` is injective. -/

theorem sep_not_prefix (t w₁ w₂ : List Char) (hw : ∀ c ∈ w₁, c ≠ ':')
    (heq : ':' :: ':' :: 'S' :: w₁ = t ++ ':' :: ':' :: 'S' :: w₂) : t = [] := by
  cases t with
  | nil => rfl
  | cons x t1 =>
    cases t1 with
    | nil =>
      simp only [List.cons_append, List.nil_append] at heq
      injection heq with e1 heq
      injection heq with e2 heq
      injection heq with e3 heq
      exact absurd e3 (by decide)
    | cons y t2 =>
      cases t2 with
      | nil =>
        simp only [List.cons_append, List.nil_append] at heq
        injection heq with e1 heq
        injection heq with e2 heq
        injection heq with e3 heq
        exact absurd e3 (by decide)
      | cons z t3 =>
        simp only [List.cons_append] at heq
        injection heq with e1 heq
        injection heq with e2 heq
        injection heq with e3 heq
        have hcol : ':' ∈ w₁ := by
          rw [heq]
          exact List.mem_append.mpr (Or.inr (List.mem_cons_self _ _))
        exact absurd rfl (hw ':' hcol)

theorem sep_append_inj (l₁ : List Char) :
    ∀ (l₂ w₁ w₂ : List Char), (∀ c ∈ w₁, c ≠ ':') → (∀ c ∈ w₂, c ≠ ':') →
    l₁ ++ ':' :: ':' :: 'S' :: w₁ = l₂ ++ ':' :: ':' :: 'S' :: w₂ →
    l₁ = l₂ ∧ w₁ = w₂ := by
  induction l₁ with
  | nil =>
    intro l₂ w₁ w₂ hw1 hw2 heq
    simp only [List.nil_append] at heq
    have ht := sep_not_prefix l₂ w₁ w₂ hw1 heq
    subst ht
    simp only [List.nil_append] at heq
    injection heq with e1 heq
    injection heq with e2 heq
    injection heq with e3 heq
    exact ⟨rfl, heq⟩
  | cons a t ih =>
    intro l₂ w₁ w₂ hw1 hw2 heq
    cases l₂ with
    | nil =>
      simp only [List.nil_append, List.cons_append] at heq
      have ht := sep_not_prefix (a :: t) w₂ w₁ hw2 (by rw [← heq]; simp)
      exact absurd ht (by simp)
    | cons b t2 =>
      simp only [List.cons_append] at heq
      injection heq with hab heq
      obtain ⟨h1, h2⟩ := ih t2 w₁ w₂ hw1 hw2 heq
      exact ⟨by rw [hab, h1], h2⟩

theorem sessionIdStr_data (cid : String) (i : Nat) :
    (sessionIdStr cid i).data = cid.data ++ ':' :: ':' :: 'S' :: pyNatRepr i := by
  unfold sessionIdStr
  rw [String.data_append, String.data_append]
  have hsep : ("::S" : String).data = [':', ':', 'S'] := by decide
  rw [hsep]
  simp [List.append_assoc]

theorem sessionIdStr_inj (c₁ c₂ : String) (i₁ i₂ : Nat)
    (h : sessionIdStr c₁ i₁ = sessionIdStr c₂ i₂) : c₁ = c₂ ∧ i₁ = i₂ := by
  have hd := congrArg String.data h
  rw [sessionIdStr_data, sessionIdStr_data] at hd
  obtain ⟨h1, h2⟩ :=
    sep_append_inj _ _ _ _ (pyNatRepr_no_colon i₁) (pyNatRepr_no_colon i₂) hd
  exact ⟨String.ext h1, pyNatRepr_inj _ _ h2⟩

theorem expand_sessionIds_nodup (courses : List Course)
    (h : (courses.map Course.id).Nodup) :
    ((expand_course_sessions courses).map CourseSession.session_id).Nodup := by
  rw [expand_eq_flatMap]
  induction courses with
  | nil => simp
  | cons c t ih =>
    rw [List.map_cons, List.nodup_cons] at h
    rw [List.flatMap_cons, List.map_append, List.nodup_append]
    refine ⟨?_, ih h.2, ?_⟩
    · rw [List.map_map]
      refine List.Nodup.map_on ?_ (List.nodup_range' 1 _)
      intro i _ j _ hij
      exact (sessionIdStr_inj _ _ _ _ hij).2
    · intro sid hsid1 hsid2
      rw [List.map_map, List.mem_map] at hsid1
      obtain ⟨i, _, hi⟩ := hsid1
      rw [List.mem_map] at hsid2
      obtain ⟨s, hs, hssid⟩ := hsid2
      rw [List.mem_flatMap] at hs
      obtain ⟨c2, hc2, hsmem⟩ := hs
      rw [List.mem_map] at hsmem
      obtain ⟨j, _, hj⟩ := hsmem
      have hields : sessionIdStr c.id i = sessionIdStr c2.id j := by
        have h1 : s.session_id = sessionIdStr c2.id j := by rw [← hj]; rfl
        have h2 : sessionIdStr c.id i = sid := hi
        rw [h2, ← hssid, h1]
      have hceq : c.id = c2.id := (sessionIdStr_inj _ _ _ _ hields).1
      exact h.1 (hceq ▸ List.mem_map.mpr ⟨c2, hc2, rfl⟩)

/-! ## Objective model (app/core/objective.py)

Python float arithmetic is modelled as exact rational arithmetic;
`int((enrollment / capacity) * 100)` (truncation of a non-negative float)
is modelled as the integer floor `100 * enrollment / capacity`. -/

theorem any_map_general {α β : Type} (f : α → β) (p : β → Bool) :
    ∀ l : List α, (l.map f).any p = l.any (fun x => p (f x)) := by
  intro l
  induction l with
  | nil => rfl
  | cons a t ih => simp [List.any_cons, ih]

theorem pyUpsert_map {α β κ : Type} [DecidableEq κ] (f : α → β) (keyA : α → κ)
    (keyB : β → κ) (hk : ∀ x, keyB (f x) = keyA x) (acc : List α) (x : α) :
    pyUpsert keyB (acc.map f) (f x) = (pyUpsert keyA acc x).map f := by
  unfold pyUpsert
  have hcond : (acc.map f).any (fun y => keyB y = keyB (f x)) =
      acc.any (fun y => keyA y = keyA x) := by
    rw [any_map_general]
    have hfun : (fun y => decide (keyB (f y) = keyB (f x))) =
        (fun y => decide (keyA y = keyA x)) := by
      funext y
      simp [hk]
    rw [hfun]
  rw [hcond]
  split
  · rw [List.map_map, List.map_map]
    apply List.map_congr_left
    intro y _
    by_cases h : keyA y = keyA x
    · simp only [Function.comp_apply, hk, h, if_true]
    · simp only [Function.comp_apply, hk, h, if_false]
  · rw [List.map_append, List.map_cons, List.map_nil]

theorem pyDict_map {α β κ : Type} [DecidableEq κ] (f : α → β) (keyA : α → κ)
    (keyB : β → κ) (hk : ∀ x, keyB (f x) = keyA x) (l : List α) :
    pyDict keyB (l.map f) = (pyDict keyA l).map f := by
  suffices h : ∀ (l acc : List α),
      (l.map f).foldl (pyUpsert keyB) (acc.map f) =
        (l.foldl (pyUpsert keyA) acc).map f by
    simpa using h l []
  intro l
  induction l with
  | nil => intro acc; rfl
  | cons a t ih =>
    intro acc
    simp only [List.map_cons, List.foldl_cons]
    rw [pyUpsert_map f keyA keyB hk acc a, ih]

theorem pyGet_map {α β κ : Type} [DecidableEq κ] (f : α → β) (keyA : α → κ)
    (keyB : β → κ) (hk : ∀ x, keyB (f x) = keyA x) (l : List α) (k : κ) :
    pyGet keyB (l.map f) k = (pyGet keyA l k).map f := by
  unfold pyGet
  rw [pyDict_map f keyA keyB hk l, List.find?_map]
  have hfun : ((fun y => decide (keyB y = k)) ∘ f) = (fun y => decide (keyA y = k)) := by
    funext y
    simp [hk]
  rw [hfun]

/-- With pairwise-distinct keys the dictionary keeps the list as is. -/
theorem pyDict_eq_self_of_nodup_keys {α κ : Type} [DecidableEq κ] (key : α → κ)
    (l : List α) (h : (l.map key).Nodup) : pyDict key l = l := by
  suffices hgen : ∀ (l acc : List α),
      (∀ k ∈ acc.map key, k ∉ l.map key) → (l.map key).Nodup →
      l.foldl (pyUpsert key) acc = acc ++ l by
    simpa using hgen l [] (by simp) h
  intro l
  induction l with
  | nil => intro acc _ _; simp
  | cons a t ih =>
    intro acc hdisj hnd
    simp only [List.foldl_cons]
    have hany : acc.any (fun y => key y = key a) = false := by
      rw [List.any_eq_false]
      intro y hy
      simp only [decide_eq_true_eq]
      intro hkey
      exact hdisj (key y) (List.mem_map.mpr ⟨y, hy, rfl⟩)
        (by rw [hkey]; exact List.mem_cons_self _ _)
    have hup : pyUpsert key acc a = acc ++ [a] := by
      unfold pyUpsert
      rw [hany]
      simp
    rw [hup, ih (acc ++ [a]) ?_ ?_]
    · simp
    · intro k hk
      rw [List.map_append] at hk
      rcases List.mem_append.mp hk with hk | hk
      · intro hmem
        exact hdisj k hk (List.mem_cons_of_mem _ hmem)
      · simp only [List.map_cons, List.map_nil, List.mem_singleton] at hk
        subst hk
        rw [List.map_cons, List.nodup_cons] at hnd
        exact hnd.1
    · rw [List.map_cons, List.nodup_cons] at hnd
      exact hnd.2

theorem pyGet_self_of_nodup_keys {α κ : Type} [DecidableEq κ] (key : α → κ)
    (l : List α) (h : (l.map key).Nodup) (x : α) (hx : x ∈ l) :
    pyGet key l (key x) = some x :=
  pyGet_of_mem_pyDict key l x (by rwa [pyDict_eq_self_of_nodup_keys key l h])

theorem buildFeasibleCandidates_eq (data : SchedulingInput) (sessions : List CourseSession) :
    buildFeasibleCandidates data sessions =
      pyDict Prod.fst (sessions.map (fun s => (s.session_id, candidateOptions data s))) := by
  unfold buildFeasibleCandidates pyDict
  rw [List.foldl_map]

theorem feasibleLookup_spec (data : SchedulingInput) (sessions : List CourseSession)
    (sid : String) :
    feasibleLookup (buildFeasibleCandidates data sessions) sid =
      (match pyGet CourseSession.session_id sessions sid with
       | some s => candidateOptions data s
       | none => []) := by
  unfold feasibleLookup
  rw [buildFeasibleCandidates_eq]
  have hmap := pyDict_map (fun s => (s.session_id, candidateOptions data s))
    CourseSession.session_id Prod.fst (fun _ => rfl) sessions
  have hfind :
      (pyDict Prod.fst (sessions.map fun s => (s.session_id, candidateOptions data s))).find?
        (fun p => decide (p.1 = sid)) =
      ((pyDict CourseSession.session_id sessions).find?
        (fun s => decide (s.session_id = sid))).map
        (fun s => (s.session_id, candidateOptions data s)) := by
    rw [hmap, List.find?_map]
    rfl
  rw [hfind]
  unfold pyGet
  cases hg : (pyDict CourseSession.session_id sessions).find?
      (fun s => decide (s.session_id = sid)) with
  | none => rfl
  | some s => rfl

/-! ## Claim C3 -/

/-- C3 counterexample: the claim asserts session ids are pairwise distinct
for every course list, but two courses sharing the id `"C"` both expand to
the session id `"C::S1"`. -/
theorem c3_counterexample :
    ¬ (((expand_course_sessions [c3DupCourseA, c3DupCourseB]).map
        CourseSession.session_id).Nodup) := by
  decide

/-- C3 (amended): for every course list, `expand_course_sessions` returns a
list whose length is the sum of `sessions_per_week` over the courses, in
stable order (courses in input order, occurrence indices `1, 2, ...`
ascending within each course), and — provided the course ids are pairwise
distinct — the `session_id` fields of the returned sessions are pairwise
distinct. -/
theorem c3_expand_course_sessions_spec (courses : List Course) :
    (expand_course_sessions courses).length =
      (courses.map Course.sessions_per_week).sum ∧
    expand_course_sessions courses =
      courses.flatMap
        (fun course =>
          (List.range' 1 course.sessions_per_week).map (mkCourseSession course)) ∧
    ((courses.map Course.id).Nodup →
      ((expand_course_sessions courses).map CourseSession.session_id).Nodup) := by
  refine ⟨?_, expand_eq_flatMap courses, expand_sessionIds_nodup courses⟩
  rw [expand_eq_flatMap, List.length_flatMap]
  congr 1
  apply List.map_congr_left
  intro c _
  simp [List.length_range']

/-- C3 witness: the amended theorem applied to a concrete course list with
distinct ids. -/
theorem c3_expand_course_sessions_spec_witness :
    (([c3PlainCourse].map Course.id).Nodup) ∧
      ((expand_course_sessions [c3PlainCourse]).map CourseSession.session_id).Nodup :=
  ⟨by decide, (c3_expand_course_sessions_spec [c3PlainCourse]).2.2 (by decide)⟩

/-! ## Claim C7 -/

theorem scenarioLe_refl (x : ScenarioResult) : scenarioLe x x := by
  unfold scenarioLe
  right
  exact ⟨rfl, Or.inr ⟨rfl, le_refl _⟩⟩

/-- C7: scenario comparison reports `none` for zero scenarios; otherwise it
reports the name of a scenario that is ranked no worse than every other
under the key (fewest hard violations, then highest objective value, then
highest coverage); in particular a scenario with 0 hard violations and
objective 100 beats one with 1 hard violation and objective 500. -/
theorem c7_compare_ranking :
    compareBestScenario [] = none ∧
    (∀ rs : List ScenarioResult, rs ≠ [] →
      ∃ s ∈ rs, compareBestScenario rs = some s.name ∧ ∀ t ∈ rs, scenarioLe s t) ∧
    compareBestScenario [c7ScenarioA, c7ScenarioB] = some "A" := by
  refine ⟨rfl, ?_, by decide⟩
  intro rs hne
  have hperm := List.perm_insertionSort scenarioLe rs
  have hsorted := List.sorted_insertionSort scenarioLe rs
  cases hs : rs.insertionSort scenarioLe with
  | nil =>
    exfalso
    have := hperm.length_eq
    rw [hs] at this
    simp at this
    exact hne (List.length_eq_zero.mp this.symm)
  | cons s rest =>
    refine ⟨s, ?_, ?_, ?_⟩
    · exact hperm.subset (hs ▸ List.mem_cons_self s rest)
    · unfold compareBestScenario
      rw [if_neg hne, hs]
      rfl
    · intro t ht
      have htm : t ∈ rs.insertionSort scenarioLe := (hperm.mem_iff).mpr ht
      rw [hs] at htm
      rcases List.mem_cons.mp htm with h | h
      · exact h ▸ scenarioLe_refl s
      · rw [hs] at hsorted
        exact (List.sorted_cons.mp hsorted).1 t h

/-- C7 witness: the ranking theorem applied to the concrete two-scenario
comparison from the claim. -/
theorem c7_compare_ranking_witness :
    ∃ s ∈ [c7ScenarioA, c7ScenarioB],
      compareBestScenario [c7ScenarioA, c7ScenarioB] = some s.name ∧
      ∀ t ∈ [c7ScenarioA, c7ScenarioB], scenarioLe s t :=
  c7_compare_ranking.2.1 _ (by decide)

/-! ## Claim C8 -/

theorem pyRound_zero (ndigits : Nat) : pyRound ndigits 0 = 0 := by
  unfold pyRound
  norm_num

theorem metrics_fold_spec (data : SchedulingInput) :
    ∀ (l : List ScheduleAssignment) (acc : ℚ × Nat × Nat),
      (∀ a ∈ l, (pyGet CourseSession.session_id (expand_course_sessions data.courses)
        a.session_id).isSome) →
      l.foldl (metricsStep data) acc =
        (acc.1 + ((l.filter (c8Eligible data)).map (c8UtilValue data)).sum,
         acc.2.1 + (l.filter (c8Eligible data)).length,
         acc.2.2 + l.countP (c8PrefHit data)) := by
  intro l
  induction l with
  | nil => intro acc _; simp
  | cons a t ih =>
    intro acc hl
    rw [List.foldl_cons, ih _ (fun b hb => hl b (List.mem_cons_of_mem a hb))]
    obtain ⟨s, hs⟩ := Option.isSome_iff_exists.mp (hl a (List.mem_cons_self a t))
    have hstep : metricsStep data acc a =
        ((if c8Eligible data a then acc.1 + c8UtilValue data a else acc.1),
         (if c8Eligible data a then acc.2.1 + 1 else acc.2.1),
         (if c8PrefHit data a then acc.2.2 + 1 else acc.2.2)) := by
      unfold metricsStep c8Eligible c8UtilValue c8PrefHit
      rw [hs]
      cases hr : pyGet Room.id data.rooms a.room_id with
      | none =>
        cases hi : pyGet Instructor.id data.instructors a.instructor_id with
        | none => simp
        | some instructor =>
          by_cases hp : a.time_slot_id ∈ instructor.preferred_time_slots
          · have hne : instructor.preferred_time_slots ≠ [] := List.ne_nil_of_mem hp
            simp [hp, hne]
          · simp [hp]
      | some room =>
        by_cases hcap : 0 < room.capacity
        · cases hi : pyGet Instructor.id data.instructors a.instructor_id with
          | none => simp [hcap]
          | some instructor =>
            by_cases hp : a.time_slot_id ∈ instructor.preferred_time_slots
            · have hne : instructor.preferred_time_slots ≠ [] := List.ne_nil_of_mem hp
              simp [hp, hne, hcap]
            · simp [hp, hcap]
        · have hcap0 : room.capacity = 0 := by omega
          cases hi : pyGet Instructor.id data.instructors a.instructor_id with
          | none => simp [hcap0]
          | some instructor =>
            by_cases hp : a.time_slot_id ∈ instructor.preferred_time_slots
            · have hne : instructor.preferred_time_slots ≠ [] := List.ne_nil_of_mem hp
              simp [hp, hne, hcap0]
            · simp [hp, hcap0]
    rw [hstep]
    cases he : c8Eligible data a <;> cases hpref : c8PrefHit data a <;>
      simp only [he, hpref, Bool.false_eq_true, if_false, if_true,
        List.filter_cons, List.countP_cons, List.map_cons, List.sum_cons,
        List.length_cons, Prod.mk.injEq]
    all_goals repeat' apply And.intro
    all_goals ring_nf

/-- C8: `build_metrics` computes coverage as scheduled/required x 100 (0
when nothing is required), room utilization as the mean of per-assignment
enrollment/capacity x 100 over assignments whose room has positive
capacity (0 when there are none), instructor preference as the fraction of
scheduled sessions landing on an instructor-preferred slot (0 when none
scheduled), hard violations as the count of error-level issues, and rounds
every percentage to two decimal places. -/
theorem c8_build_metrics_spec (data : SchedulingInput)
    (assignments : List ScheduleAssignment) (validation : ValidationReport)
    (ob : ObjectiveBreakdown)
    (h : ∀ a ∈ assignments,
      (pyGet CourseSession.session_id (expand_course_sessions data.courses)
        a.session_id).isSome) :
    build_metrics data assignments validation ob =
      { sessions_required := (expand_course_sessions data.courses).length
        sessions_scheduled := assignments.length
        coverage_pct :=
          if (expand_course_sessions data.courses).length = 0 then 0
          else pyRound 2 ((assignments.length : ℚ) /
            ((expand_course_sessions data.courses).length : ℚ) * 100)
        room_utilization_pct :=
          if (assignments.filter (c8Eligible data)).length = 0 then 0
          else pyRound 2 (((assignments.filter (c8Eligible data)).map
              (c8UtilValue data)).sum /
            ((assignments.filter (c8Eligible data)).length : ℚ) * 100)
        instructor_preference_pct :=
          if assignments.length = 0 then 0
          else pyRound 2 ((assignments.countP (c8PrefHit data) : ℚ) /
            (assignments.length : ℚ) * 100)
        hard_violations := validation.issues.countP (fun i => i.level = "error")
        objective_breakdown := ob } := by
  unfold build_metrics
  rw [metrics_fold_spec data assignments (0, 0, 0) h]
  simp only [ScheduleMetrics.mk.injEq, zero_add, true_and, and_true]
  refine ⟨?_, ?_, ?_⟩
  · by_cases h0 : (expand_course_sessions data.courses).length = 0
    · simp [h0, pyRound_zero]
    · simp [h0]
  · by_cases h0 : (assignments.filter (c8Eligible data)).length = 0
    · simp [h0, pyRound_zero]
    · simp [h0]
  · by_cases h0 : assignments.length = 0
    · simp [h0, pyRound_zero]
    · simp [h0]

/-- C6 counterexample: a record whose session exists and is not a
duplicate, whose time_slot_id is unknown and whose instructor does not
exist: the report contains UNKNOWN_TIME_SLOT but no UNKNOWN_INSTRUCTOR, so
the instructor-existence check is not performed for records with unknown
slot ids. -/
theorem c6_counterexample :
    (∃ i ∈ (validate_schedule c6Data [c6Assignment]).issues,
      i.code = "UNKNOWN_TIME_SLOT") ∧
    ∀ i ∈ (validate_schedule c6Data [c6Assignment]).issues,
      i.code ≠ "UNKNOWN_INSTRUCTOR" := by
  decide

/-- C6 (amended): for every record whose session exists and is not a
duplicate, the instructor-existence check runs only when the record's time
slot exists: with an unknown slot the record contributes an
UNKNOWN_TIME_SLOT issue and no UNKNOWN_INSTRUCTOR issue; with a known slot
and a missing instructor the report contains an UNKNOWN_INSTRUCTOR issue
naming the session's instructor id. -/
theorem c6_unknown_instructor_check (data : SchedulingInput)
    (pre : List ScheduleAssignment) (a : ScheduleAssignment) (s : CourseSession)
    (hsession : pyGet CourseSession.session_id (expand_course_sessions data.courses)
      a.session_id = some s)
    (hnew : a.session_id ∉ (pre.foldl (validateStep data) ⟨[], [], [], []⟩).seen) :
    (pyGet TimeSlot.id data.time_slots a.time_slot_id = none →
      (∃ i ∈ recordIssues data (pre.foldl (validateStep data) ⟨[], [], [], []⟩).seen a,
        i.code = "UNKNOWN_TIME_SLOT") ∧
      ∀ i ∈ recordIssues data (pre.foldl (validateStep data) ⟨[], [], [], []⟩).seen a,
        i.code ≠ "UNKNOWN_INSTRUCTOR") ∧
    (∀ slot, pyGet TimeSlot.id data.time_slots a.time_slot_id = some slot →
      pyGet Instructor.id data.instructors s.instructor_id = none →
      ∃ i ∈ (validate_schedule data (pre ++ [a])).issues,
        i.code = "UNKNOWN_INSTRUCTOR" ∧ i.detail_instructor_id = some s.instructor_id) := by
  set seen := (pre.foldl (validateStep data) ⟨[], [], [], []⟩).seen with hseen
  constructor
  · intro hslot
    unfold recordIssues
    simp only [hsession]
    rw [if_neg hnew]
    simp only [hslot]
    constructor
    · refine ⟨mkIssue "UNKNOWN_TIME_SLOT" none [] none, ?_, rfl⟩
      simp [List.mem_append]
    · intro i hi
      simp only [List.mem_append] at hi
      rcases hi with ((hi | hi) | hi) | hi
      · split at hi <;> simp_all [mkIssue]
      · split at hi <;> simp_all [mkIssue]
      · cases hroom : pyGet Room.id data.rooms a.room_id with
        | none => rw [hroom] at hi; simp_all [mkIssue]
        | some room =>
          rw [hroom] at hi
          simp only [List.mem_append] at hi
          rcases hi with hi | hi <;> split at hi <;> simp_all [mkIssue]
      · simp_all [mkIssue]
  · intro slot hslot hinstr
    have hrec : ∃ i ∈ recordIssues data seen a,
        i.code = "UNKNOWN_INSTRUCTOR" ∧ i.detail_instructor_id = some s.instructor_id := by
      unfold recordIssues
      simp only [hsession]
      rw [if_neg hnew]
      simp only [hslot, hinstr]
      refine ⟨mkIssue "UNKNOWN_INSTRUCTOR" none [] (some s.instructor_id), ?_, rfl, rfl⟩
      simp [List.mem_append]
    obtain ⟨i, hi, hprop⟩ := hrec
    refine ⟨i, ?_, hprop⟩
    have hfold : (pre ++ [a]).foldl (validateStep data) ⟨[], [], [], []⟩ =
        validateStep data (pre.foldl (validateStep data) ⟨[], [], [], []⟩) a := by
      rw [List.foldl_append, List.foldl_cons, List.foldl_nil]
    have hmem : i ∈ ((pre ++ [a]).foldl (validateStep data) ⟨[], [], [], []⟩).issues := by
      rw [hfold]
      unfold validateStep
      split <;> simp only [List.mem_append] <;> exact Or.inr hi
    show i ∈ (validate_schedule data (pre ++ [a])).issues
    unfold validate_schedule
    simp only [List.mem_append]
    exact Or.inl (Or.inl (Or.inl hmem))

/-- C6 witness: the amended theorem applied to a record with a known slot
and a missing instructor. -/
theorem c6_unknown_instructor_check_witness :
    ∃ i ∈ (validate_schedule c6Data ([] ++ [c6GoodSlotAssignment])).issues,
      i.code = "UNKNOWN_INSTRUCTOR" ∧ i.detail_instructor_id = some "GHOST" := by
  have h := c6_unknown_instructor_check c6Data [] c6GoodSlotAssignment
    (mkCourseSession c6Course 1) (by decide) (by decide)
  exact h.2 ⟨"T1", "Mon", "09:00", "10:15", 0⟩ (by decide) (by decide)

/-! ## Claim C10 -/

/-- A record rejected by the per-record screening produces exactly the one
unknown/duplicate issue. -/
theorem recordIssues_of_not_kept (data : SchedulingInput) (seen : List String)
    (a : ScheduleAssignment) (h : recordKept data seen a = false) :
    ∀ i ∈ recordIssues data seen a,
      i.code = "UNKNOWN_SESSION" ∨ i.code = "DUPLICATE_SESSION_ASSIGNMENT" := by
  intro i hi
  unfold recordKept at h
  unfold recordIssues at hi
  cases hs : pyGet CourseSession.session_id (expand_course_sessions data.courses)
      a.session_id with
  | none =>
    rw [hs] at hi
    simp only [List.mem_singleton] at hi
    subst hi
    exact Or.inl rfl
  | some s =>
    rw [hs] at h
    simp only [hs] at hi
    have hseen : a.session_id ∈ seen := by
      by_contra hc
      simp [hc] at h
    rw [if_pos hseen] at hi
    simp only [List.mem_singleton] at hi
    subst hi
    exact Or.inr rfl

theorem validateStep_not_kept (data : SchedulingInput) (st : VState)
    (a : ScheduleAssignment) (h : recordKept data st.seen a = false) :
    validateStep data st a =
      { st with issues := st.issues ++ recordIssues data st.seen a } := by
  unfold validateStep
  rw [h]
  simp

theorem validate_schedule_issues (data : SchedulingInput) (l : List ScheduleAssignment) :
    (validate_schedule data l).issues =
      (l.foldl (validateStep data) ⟨[], [], [], []⟩).issues ++
      roomConflictIssues (l.foldl (validateStep data) ⟨[], [], [], []⟩) ++
      instructorConflictIssues (l.foldl (validateStep data) ⟨[], [], [], []⟩) ++
      missingSessionIssues data (l.foldl (validateStep data) ⟨[], [], [], []⟩) := rfl

theorem roomConflictIssues_set_issues (st : VState) (x : List ValidationIssue) :
    roomConflictIssues { st with issues := x } = roomConflictIssues st := rfl

theorem instructorConflictIssues_set_issues (st : VState) (x : List ValidationIssue) :
    instructorConflictIssues { st with issues := x } = instructorConflictIssues st := rfl

theorem missingSessionIssues_set_issues (data : SchedulingInput) (st : VState)
    (x : List ValidationIssue) :
    missingSessionIssues data { st with issues := x } = missingSessionIssues data st := rfl

theorem VState_set_issues_issues (st : VState) (x : List ValidationIssue) :
    ({ st with issues := x } : VState).issues = x := rfl

/-- C10 (amended): a record flagged UNKNOWN_SESSION or
DUPLICATE_SESSION_ASSIGNMENT is excluded from the cross-record conflict
pass: appending such a record to a schedule leaves the
ROOM_TIME_CONFLICT and INSTRUCTOR_TIME_CONFLICT issues of the report
unchanged, so a duplicated record that double-books a room or instructor
produces only the duplicate/unknown issue and never creates or joins a
conflict itself (its session id may still appear in a conflict detail
through its first, non-flagged occurrence). -/
theorem c10_flagged_excluded_from_conflicts (data : SchedulingInput)
    (pre : List ScheduleAssignment) (a : ScheduleAssignment)
    (hflag : recordKept data
      (pre.foldl (validateStep data) ⟨[], [], [], []⟩).seen a = false) :
    (validate_schedule data (pre ++ [a])).issues.filter conflictCode =
      (validate_schedule data pre).issues.filter conflictCode := by
  set final := pre.foldl (validateStep data) ⟨[], [], [], []⟩ with hfinal
  have hfold : (pre ++ [a]).foldl (validateStep data) ⟨[], [], [], []⟩ =
      validateStep data final a := by
    rw [List.foldl_append, List.foldl_cons, List.foldl_nil, hfinal]
  have hstep := validateStep_not_kept data final a hflag
  have hissues1 : (validate_schedule data (pre ++ [a])).issues =
      (final.issues ++ recordIssues data final.seen a) ++
        roomConflictIssues final ++ instructorConflictIssues final ++
        missingSessionIssues data final := by
    rw [validate_schedule_issues, hfold, hstep, roomConflictIssues_set_issues,
      instructorConflictIssues_set_issues, missingSessionIssues_set_issues,
      VState_set_issues_issues]
  have hissues2 : (validate_schedule data pre).issues =
      final.issues ++ roomConflictIssues final ++ instructorConflictIssues final ++
        missingSessionIssues data final := by
    rw [validate_schedule_issues, hfinal]
  rw [hissues1, hissues2]
  simp only [List.filter_append]
  have hrec : (recordIssues data final.seen a).filter conflictCode = [] := by
    rw [List.filter_eq_nil_iff]
    intro i hi
    rcases recordIssues_of_not_kept data final.seen a hflag i hi with h | h <;>
      simp [conflictCode, h]
  rw [hrec]
  simp

/-- C10 counterexample: the third record is flagged
DUPLICATE_SESSION_ASSIGNMENT, yet its session id C1::S1 appears in the
session_ids detail of a ROOM_TIME_CONFLICT issue (via its first,
non-flagged occurrence), refuting the claim that a flagged record's
session id never appears in a conflict detail. -/
theorem c10_counterexample :
    (∃ i ∈ (validate_schedule c10Data [c10A1, c10A2, c10A3]).issues,
      i.code = "DUPLICATE_SESSION_ASSIGNMENT" ∧ i.detail_session_id = some "C1::S1") ∧
    ∃ i ∈ (validate_schedule c10Data [c10A1, c10A2, c10A3]).issues,
      i.code = "ROOM_TIME_CONFLICT" ∧ "C1::S1" ∈ i.detail_session_ids := by
  decide

/-- C10 witness: the amended theorem applied to the concrete duplicated
record. -/
theorem c10_flagged_excluded_from_conflicts_witness :
    (validate_schedule c10Data ([c10A1, c10A2] ++ [c10A3])).issues.filter conflictCode =
      (validate_schedule c10Data [c10A1, c10A2]).issues.filter conflictCode :=
  c10_flagged_excluded_from_conflicts c10Data [c10A1, c10A2] c10A3 (by decide)

/-! ## Claim C5 -/

theorem foldl_match_filterMap {α β γ : Type} (f : α → Option β) (g : γ → β → γ) :
    ∀ (l : List α) (init : γ),
      l.foldl (fun acc x => match f x with | none => acc | some y => g acc y) init =
        (l.filterMap f).foldl g init := by
  intro l
  induction l with
  | nil => intro init; rfl
  | cons a t ih =>
    intro init
    rw [List.foldl_cons, List.filterMap_cons]
    cases hf : f a with
    | none => exact ih init
    | some y => rw [List.foldl_cons]; exact ih (g init y)

theorem scanCandidates_eq_scanPick_fold (data : SchedulingInput) (st : HState)
    (session : CourseSession) (instructor : Instructor) (l : List (String × String)) :
    scanCandidates data st session instructor l =
      (l.filterMap (fun c => (candidateCheck data st session instructor c).map
        (fun sc => (c, sc)))).foldl scanPick none := by
  unfold scanCandidates
  rw [← foldl_match_filterMap]
  congr 1
  funext best c
  cases candidateCheck data st session instructor c with
  | none => rfl
  | some score =>
    cases best with
    | none => rfl
    | some b => cases b; rfl

theorem scanPick_fold_ne_none :
    ∀ (S : List ((String × String) × ℤ)) (b : (String × String) × ℤ),
      S.foldl scanPick (some b) ≠ none := by
  intro S
  induction S with
  | nil => intro b h; exact Option.noConfusion h
  | cons y T ih =>
    intro b
    rw [List.foldl_cons]
    unfold scanPick
    split
    · next heq => exact absurd heq (Option.noConfusion)
    · next b2 bscore heq =>
      by_cases hgt : y.2 > bscore
      · rw [if_pos hgt]; exact ih y
      · rw [if_neg hgt]; exact ih (b2, bscore)

theorem scanPick_fold_some_spec :
    ∀ (S : List ((String × String) × ℤ)) (b r : (String × String) × ℤ),
      S.foldl scanPick (some b) = some r →
      (r = b ∧ ∀ y ∈ S, y.2 ≤ b.2) ∨
      (∃ S1 S2, S = S1 ++ r :: S2 ∧ b.2 < r.2 ∧
        (∀ y ∈ S1, y.2 < r.2) ∧ (∀ y ∈ S2, y.2 ≤ r.2)) := by
  intro S
  induction S with
  | nil =>
    intro b r h
    simp only [List.foldl_nil, Option.some.injEq] at h
    exact Or.inl ⟨h.symm, by simp⟩
  | cons y T ih =>
    intro b r h
    rw [List.foldl_cons] at h
    have hpick : scanPick (some b) y = if y.2 > b.2 then some y else some b := by
      unfold scanPick
      rfl
    rw [hpick] at h
    by_cases hgt : y.2 > b.2
    · rw [if_pos hgt] at h
      rcases ih y r h with ⟨hr, hall⟩ | ⟨S1, S2, hsplit, hlt, h1, h2⟩
      · subst hr
        refine Or.inr ⟨[], T, by simp, hgt, by simp, hall⟩
      · refine Or.inr ⟨y :: S1, S2, by rw [hsplit]; rfl, lt_trans hgt hlt, ?_, h2⟩
        intro z hz
        rcases List.mem_cons.mp hz with hz | hz
        · rw [hz]; exact hlt
        · exact h1 z hz
    · rw [if_neg hgt] at h
      rcases ih b r h with ⟨hr, hall⟩ | ⟨S1, S2, hsplit, hlt, h1, h2⟩
      · refine Or.inl ⟨hr, ?_⟩
        intro z hz
        rcases List.mem_cons.mp hz with hz | hz
        · rw [hz]; exact le_of_not_lt hgt
        · exact hall z hz
      · refine Or.inr ⟨y :: S1, S2, by rw [hsplit]; rfl, hlt, ?_, h2⟩
        intro z hz
        rcases List.mem_cons.mp hz with hz | hz
        · rw [hz]; exact lt_of_le_of_lt (le_of_not_lt hgt) hlt
        · exact h1 z hz

/-- C5 (amended): within the per-session scan, candidates are enumerated
in room insertion order (order of first occurrence in the room input,
rooms being iterated from the room dictionary) and, within a room, by
ascending time-slot order index; among the candidates surviving the
exclusion filters the scan selects the score-maximising one that is
earliest in that enumeration order (strictly greater scores replace the
incumbent), and returns `none` exactly when no candidate survives. -/
theorem c5_scan_selects_earliest_max (data : SchedulingInput) (st : HState)
    (session : CourseSession) (instructor : Instructor)
    (candidates : List (String × String)) :
    (scanCandidates data st session instructor candidates = none ↔
      candidates.filterMap (fun c => (candidateCheck data st session instructor c).map
        (fun sc => (c, sc))) = []) ∧
    (∀ c sc, scanCandidates data st session instructor candidates = some (c, sc) →
      candidateCheck data st session instructor c = some sc ∧
      ∃ S1 S2,
        candidates.filterMap (fun c2 => (candidateCheck data st session instructor c2).map
          (fun sc2 => (c2, sc2))) = S1 ++ (c, sc) :: S2 ∧
        (∀ y ∈ S1, y.2 < sc) ∧ (∀ y ∈ S2, y.2 ≤ sc)) := by
  rw [scanCandidates_eq_scanPick_fold]
  set S := candidates.filterMap (fun c => (candidateCheck data st session instructor c).map
    (fun sc => (c, sc))) with hS
  constructor
  · constructor
    · intro h
      cases hSc : S with
      | nil => rfl
      | cons y T =>
        rw [hSc, List.foldl_cons] at h
        exact absurd h (scanPick_fold_ne_none T y)
    · intro h
      rw [h]
      rfl
  · intro c sc h
    have hsplit : ∃ S1 S2, S = S1 ++ (c, sc) :: S2 ∧
        (∀ y ∈ S1, y.2 < sc) ∧ (∀ y ∈ S2, y.2 ≤ sc) := by
      cases hSc : S with
      | nil =>
        rw [hSc, List.foldl_nil] at h
        exact Option.noConfusion h
      | cons y T =>
        rw [hSc, List.foldl_cons] at h
        have hpick : scanPick none y = some y := rfl
        rw [hpick] at h
        rcases scanPick_fold_some_spec T y (c, sc) h with ⟨hr, hall⟩ | ⟨S1, S2, hs, hlt, h1, h2⟩
        · refine ⟨[], T, by rw [hr]; rfl, by simp, ?_⟩
          rw [← hr] at hall
          exact hall
        · refine ⟨y :: S1, S2, by rw [hs]; rfl, ?_, h2⟩
          intro z hz
          rcases List.mem_cons.mp hz with hz | hz
          · rw [hz]; exact hlt
          · exact h1 z hz
    refine ⟨?_, hsplit⟩
    obtain ⟨S1, S2, hs, _, _⟩ := hsplit
    have hmem : (c, sc) ∈ S := by
      rw [hs]
      exact List.mem_append.mpr (Or.inr (List.mem_cons_self _ _))
    rw [hS] at hmem
    rcases List.mem_filterMap.mp hmem with ⟨c2, _, hc2⟩
    cases hchk : candidateCheck data st session instructor c2 with
    | none => rw [hchk] at hc2; exact Option.noConfusion hc2
    | some sc2 =>
      rw [hchk] at hc2
      have hc2b : (c2, sc2) = (c, sc) := by
        have h2 : some (c2, sc2) = some (c, sc) := hc2
        exact Option.some.inj h2
      have hc2c : c2 = c := congrArg Prod.fst hc2b
      have hc2s : sc2 = sc := congrArg Prod.snd hc2b
      rw [← hc2c, hchk, hc2s]

/-- C5 counterexample: both rooms give surviving candidates with equal
local score, yet the heuristic schedules room `R2` (first in input order),
not `R1` (first in ascending room-id order), refuting the claimed
ascending-room-id tie-break. -/
theorem c5_counterexample :
    (solve_with_heuristic c5Data 0).assignments.map (fun a => a.room_id) = ["R2"] ∧
    candidateCheck c5Data initHState c5Session c5Instructor ("R1", "T1") =
      candidateCheck c5Data initHState c5Session c5Instructor ("R2", "T1") ∧
    (candidateCheck c5Data initHState c5Session c5Instructor ("R1", "T1")).isSome := by
  decide

/-- C5 witness: the amended theorem applied to the concrete scan, where the
survivor list has the chosen candidate first. -/
theorem c5_scan_selects_earliest_max_witness :
    candidateCheck c5Data initHState c5Session c5Instructor ("R2", "T1") = some 30 ∧
    ∃ S1 S2,
      (feasibleLookup (buildFeasibleCandidates c5Data
          (expand_course_sessions c5Data.courses)) "C1::S1").filterMap
        (fun c2 => (candidateCheck c5Data initHState c5Session c5Instructor c2).map
          (fun sc2 => (c2, sc2))) = S1 ++ (("R2", "T1"), (30:ℤ)) :: S2 ∧
      (∀ y ∈ S1, y.2 < (30:ℤ)) ∧ (∀ y ∈ S2, y.2 ≤ (30:ℤ)) :=
  (c5_scan_selects_earliest_max c5Data initHState c5Session c5Instructor
    (feasibleLookup (buildFeasibleCandidates c5Data
      (expand_course_sessions c5Data.courses)) "C1::S1")).2
    ("R2", "T1") 30 (by decide)

/-! ## Claim C1 -/

theorem recordIssues_no_bad (data : SchedulingInput) (seen : List String)
    (a : ScheduleAssignment) (hfeas : recordFeasible data a) :
    ∀ i ∈ recordIssues data seen a, badSolverCode i = false := by
  obtain ⟨s, hs, room, hroom, hcap, hfeat⟩ := hfeas
  intro i hi
  unfold recordIssues at hi
  simp only [hs] at hi
  split at hi
  · simp only [List.mem_singleton] at hi
    subst hi
    rfl
  · simp only [List.mem_append] at hi
    rcases hi with ((hi | hi) | hi) | hi
    · split at hi
      · simp only [List.mem_singleton] at hi; subst hi; rfl
      · exact absurd hi (List.not_mem_nil i)
    · split at hi
      · simp only [List.mem_singleton] at hi; subst hi; rfl
      · exact absurd hi (List.not_mem_nil i)
    · simp only [hroom] at hi
      rw [if_neg (Nat.not_lt.mpr hcap), if_neg (not_not_intro hfeat)] at hi
      simp at hi
    · cases hslot : pyGet TimeSlot.id data.time_slots a.time_slot_id with
      | none =>
        simp only [hslot, List.mem_singleton] at hi
        subst hi
        rfl
      | some slot =>
        simp only [hslot] at hi
        simp only [List.mem_append] at hi
        rcases hi with hi | hi
        · cases hinstr : pyGet Instructor.id data.instructors s.instructor_id with
          | none =>
            simp only [hinstr, List.mem_singleton] at hi
            subst hi
            rfl
          | some instructor =>
            simp only [hinstr] at hi
            split at hi
            · simp only [List.mem_singleton] at hi; subst hi; rfl
            · exact absurd hi (List.not_mem_nil i)
        · split at hi
          · simp only [List.mem_singleton] at hi; subst hi; rfl
          · exact absurd hi (List.not_mem_nil i)

theorem validateStep_issues (data : SchedulingInput) (st : VState)
    (a : ScheduleAssignment) :
    (validateStep data st a).issues = st.issues ++ recordIssues data st.seen a := by
  unfold validateStep
  split <;> rfl

theorem validate_fold_issues_no_bad (data : SchedulingInput) :
    ∀ (rs : List ScheduleAssignment) (st : VState),
      (∀ i ∈ st.issues, badSolverCode i = false) →
      (∀ a ∈ rs, recordFeasible data a) →
      ∀ i ∈ (rs.foldl (validateStep data) st).issues, badSolverCode i = false := by
  intro rs
  induction rs with
  | nil => intro st h _; exact h
  | cons a t ih =>
    intro st h hfeas
    rw [List.foldl_cons]
    refine ih (validateStep data st a) ?_ (fun b hb => hfeas b (List.mem_cons_of_mem a hb))
    intro i hi
    rw [validateStep_issues] at hi
    rcases List.mem_append.mp hi with hi | hi
    · exact h i hi
    · exact recordIssues_no_bad data st.seen a (hfeas a (List.mem_cons_self a t)) i hi

theorem usageAdd_new (u : List ((String × String) × List String)) (k : String × String)
    (sid : String) (h : ∀ p ∈ u, p.1 ≠ k) : usageAdd u k sid = u ++ [(k, [sid])] := by
  unfold usageAdd
  rw [if_neg]
  intro hc
  rcases List.any_eq_true.mp hc with ⟨p, hp, hpk⟩
  exact h p hp (of_decide_eq_true hpk)

theorem validate_fold_usage_short (data : SchedulingInput) :
    ∀ (rs : List ScheduleAssignment) (st : VState),
      (∀ p ∈ st.room_slot_usage, p.2.length ≤ 1) →
      (∀ p ∈ st.room_slot_usage, ∀ a ∈ rs, p.1 ≠ (a.room_id, a.time_slot_id)) →
      ((rs.map (fun a => (a.room_id, a.time_slot_id))).Nodup) →
      (∀ p ∈ st.instructor_slot_usage, p.2.length ≤ 1) →
      (∀ p ∈ st.instructor_slot_usage, ∀ a ∈ rs,
        p.1 ≠ (a.instructor_id, a.time_slot_id)) →
      ((rs.map (fun a => (a.instructor_id, a.time_slot_id))).Nodup) →
      (∀ p ∈ (rs.foldl (validateStep data) st).room_slot_usage, p.2.length ≤ 1) ∧
      (∀ p ∈ (rs.foldl (validateStep data) st).instructor_slot_usage, p.2.length ≤ 1) := by
  intro rs
  induction rs with
  | nil => intro st h1 _ _ h4 _ _; exact ⟨h1, h4⟩
  | cons a t ih =>
    intro st h1 h2 h3 h4 h5 h6
    rw [List.foldl_cons]
    rw [List.map_cons, List.nodup_cons] at h3 h6
    by_cases hkept : recordKept data st.seen a = true
    · have hstep : validateStep data st a =
          { seen := st.seen ++ [a.session_id]
            room_slot_usage := st.room_slot_usage ++
              [((a.room_id, a.time_slot_id), [a.session_id])]
            instructor_slot_usage := st.instructor_slot_usage ++
              [((a.instructor_id, a.time_slot_id), [a.session_id])]
            issues := st.issues ++ recordIssues data st.seen a } := by
        unfold validateStep
        rw [hkept]
        simp only [if_true]
        rw [usageAdd_new _ _ _ (fun p hp => h2 p hp a (List.mem_cons_self a t)),
          usageAdd_new _ _ _ (fun p hp => h5 p hp a (List.mem_cons_self a t))]
      rw [hstep]
      refine ih _ ?_ ?_ h3.2 ?_ ?_ h6.2
      · intro p hp
        rcases List.mem_append.mp hp with hp | hp
        · exact h1 p hp
        · simp only [List.mem_singleton] at hp
          subst hp
          simp
      · intro p hp b hb
        rcases List.mem_append.mp hp with hp | hp
        · exact h2 p hp b (List.mem_cons_of_mem a hb)
        · simp only [List.mem_singleton] at hp
          subst hp
          intro hc
          apply h3.1
          have hc2 : (a.room_id, a.time_slot_id) = (b.room_id, b.time_slot_id) := hc
          rw [hc2]
          exact List.mem_map.mpr ⟨b, hb, rfl⟩
      · intro p hp
        rcases List.mem_append.mp hp with hp | hp
        · exact h4 p hp
        · simp only [List.mem_singleton] at hp
          subst hp
          simp
      · intro p hp b hb
        rcases List.mem_append.mp hp with hp | hp
        · exact h5 p hp b (List.mem_cons_of_mem a hb)
        · simp only [List.mem_singleton] at hp
          subst hp
          intro hc
          apply h6.1
          have hc2 : (a.instructor_id, a.time_slot_id) = (b.instructor_id, b.time_slot_id) := hc
          rw [hc2]
          exact List.mem_map.mpr ⟨b, hb, rfl⟩
    · have hstep : validateStep data st a =
          { st with issues := st.issues ++ recordIssues data st.seen a } := by
        unfold validateStep
        rw [Bool.not_eq_true] at hkept
        rw [hkept]
        simp
      rw [hstep]
      refine ih _ h1 ?_ h3.2 h4 ?_ h6.2
      · intro p hp b hb
        exact h2 p hp b (List.mem_cons_of_mem a hb)
      · intro p hp b hb
        exact h5 p hp b (List.mem_cons_of_mem a hb)

theorem roomConflictIssues_nil (final : VState)
    (h : ∀ p ∈ final.room_slot_usage, p.2.length ≤ 1) :
    roomConflictIssues final = [] := by
  unfold roomConflictIssues
  rw [List.filterMap_eq_nil_iff]
  intro p hp
  rw [if_neg]
  exact Nat.not_lt.mpr (h p hp)

theorem instructorConflictIssues_nil (final : VState)
    (h : ∀ p ∈ final.instructor_slot_usage, p.2.length ≤ 1) :
    instructorConflictIssues final = [] := by
  unfold instructorConflictIssues
  rw [List.filterMap_eq_nil_iff]
  intro p hp
  rw [if_neg]
  exact Nat.not_lt.mpr (h p hp)

theorem missingSessionIssues_no_bad (data : SchedulingInput) (final : VState) :
    ∀ i ∈ missingSessionIssues data final, badSolverCode i = false := by
  intro i hi
  unfold missingSessionIssues at hi
  rcases List.mem_map.mp hi with ⟨sid, _, hmk⟩
  subst hmk
  rfl

theorem candidateOptions_mem (data : SchedulingInput) (s : CourseSession)
    (c : String × String) (hc : c ∈ candidateOptions data s) :
    ∃ room, pyGet Room.id data.rooms c.1 = some room ∧
      s.enrollment ≤ room.capacity ∧ ∀ f ∈ s.required_features, f ∈ room.features := by
  unfold candidateOptions at hc
  cases hinstr : pyGet Instructor.id data.instructors s.instructor_id with
  | none => rw [hinstr] at hc; exact absurd hc (List.not_mem_nil c)
  | some instructor =>
    rw [hinstr] at hc
    rcases List.mem_flatMap.mp hc with ⟨room, hroom, hcr⟩
    split at hcr
    · exact absurd hcr (List.not_mem_nil c)
    · split at hcr
      · exact absurd hcr (List.not_mem_nil c)
      · next hcap hfeat =>
        rcases List.mem_filterMap.mp hcr with ⟨slot, _, hopt⟩
        split at hopt
        · exact Option.noConfusion hopt
        · split at hopt
          · exact Option.noConfusion hopt
          · have hceq : c = (room.id, slot.id) := (Option.some.inj hopt).symm
            refine ⟨room, ?_, Nat.le_of_not_lt hcap, not_not.mp hfeat⟩
            rw [hceq]
            exact pyGet_of_mem_pyDict Room.id data.rooms room hroom

theorem scanCandidates_some_mem (data : SchedulingInput) (st : HState)
    (session : CourseSession) (instructor : Instructor) (l : List (String × String))
    (c : String × String) (sc : ℤ)
    (h : scanCandidates data st session instructor l = some (c, sc)) :
    candidateCheck data st session instructor c = some sc ∧ c ∈ l := by
  rw [scanCandidates_eq_scanPick_fold] at h
  have hmem : (c, sc) ∈ l.filterMap (fun c2 =>
      (candidateCheck data st session instructor c2).map (fun sc2 => (c2, sc2))) := by
    cases hS : l.filterMap (fun c2 =>
        (candidateCheck data st session instructor c2).map (fun sc2 => (c2, sc2))) with
    | nil =>
      rw [hS, List.foldl_nil] at h
      exact Option.noConfusion h
    | cons y T =>
      rw [hS, List.foldl_cons] at h
      have hpick : scanPick none y = some y := rfl
      rw [hpick] at h
      rcases scanPick_fold_some_spec T y (c, sc) h with ⟨hr, _⟩ | ⟨S1, S2, hsplit, _, _, _⟩
      · rw [hr]; exact List.mem_cons_self y T
      · rw [hsplit]
        exact List.mem_cons_of_mem y (List.mem_append.mpr (Or.inr (List.mem_cons_self _ _)))
  rcases List.mem_filterMap.mp hmem with ⟨c2, hc2mem, hc2⟩
  cases hchk : candidateCheck data st session instructor c2 with
  | none => rw [hchk] at hc2; exact Option.noConfusion hc2
  | some sc2 =>
    rw [hchk] at hc2
    have hc2b : (c2, sc2) = (c, sc) := by
      have h2 : some (c2, sc2) = some (c, sc) := hc2
      exact Option.some.inj h2
    have hc2c : c2 = c := congrArg Prod.fst hc2b
    have hc2s : sc2 = sc := congrArg Prod.snd hc2b
    subst hc2c
    exact ⟨by rw [hchk, hc2s], hc2mem⟩

theorem candidateCheck_not_occupied (data : SchedulingInput) (st : HState)
    (session : CourseSession) (instructor : Instructor) (c : String × String) (sc : ℤ)
    (h : candidateCheck data st session instructor c = some sc) :
    (c.1, c.2) ∉ st.occupied_room_slot ∧
      (session.instructor_id, c.2) ∉ st.occupied_instructor_slot := by
  unfold candidateCheck at h
  cases hslot : pyGet TimeSlot.id data.time_slots c.2 with
  | none =>
    simp only [hslot] at h
    exact Option.noConfusion h
  | some slot =>
    cases hroom : pyGet Room.id data.rooms c.1 with
    | none =>
      simp only [hslot, hroom] at h
      exact Option.noConfusion h
    | some room =>
      simp only [hslot, hroom] at h
      split at h
      · exact Option.noConfusion h
      · next hocc1 =>
        split at h
        · exact Option.noConfusion h
        · next hocc2 => exact ⟨hocc1, hocc2⟩

/-- Zeta-expanded form of one heuristic step. -/
theorem heuristicStep_unfold (data : SchedulingInput)
    (feasible : List (String × List (String × String))) (st : HState)
    (session : CourseSession) :
    heuristicStep data feasible st session =
      if feasibleLookup feasible session.session_id = [] then
        { st with unscheduled := st.unscheduled ++ [session.session_id] }
      else
        match pyGet Instructor.id data.instructors session.instructor_id with
        | none => { st with unscheduled := st.unscheduled ++ [session.session_id] }
        | some instructor =>
          match scanCandidates data st session instructor
              (feasibleLookup feasible session.session_id) with
          | none => { st with unscheduled := st.unscheduled ++ [session.session_id] }
          | some ((room_id, slot_id), _) =>
            match pyGet TimeSlot.id data.time_slots slot_id with
            | none => st
            | some slot =>
              { occupied_room_slot := st.occupied_room_slot ++ [(room_id, slot_id)]
                occupied_instructor_slot :=
                  st.occupied_instructor_slot ++ [(session.instructor_id, slot_id)]
                course_days_used := st.course_days_used ++ [(session.course_id, slot.day)]
                instructor_day_count :=
                  st.instructor_day_count ++ [(session.instructor_id, slot.day)]
                cluster_days_used :=
                  match session.cluster_tag with
                  | some tag =>
                    if tag ≠ "" then st.cluster_days_used ++ [(tag, slot.day)]
                    else st.cluster_days_used
                  | none => st.cluster_days_used
                assignments := st.assignments ++
                  [{ session_id := session.session_id, course_id := session.course_id,
                     instructor_id := session.instructor_id, room_id := room_id,
                     time_slot_id := slot_id }]
                unscheduled := st.unscheduled } := rfl

theorem heuristicStep_preserves (data : SchedulingInput) (session : CourseSession)
    (st : HState) (hInv : HInv data st) :
    HInv data (heuristicStep data
      (buildFeasibleCandidates data (expand_course_sessions data.courses)) st session) := by
  obtain ⟨hfeas, ⟨hrn, hro⟩, ⟨hin, hio⟩⟩ := hInv
  rw [heuristicStep_unfold]
  split
  · exact ⟨hfeas, ⟨hrn, hro⟩, ⟨hin, hio⟩⟩
  · cases hinstr : pyGet Instructor.id data.instructors session.instructor_id with
    | none =>
      simp only [hinstr]
      exact ⟨hfeas, ⟨hrn, hro⟩, ⟨hin, hio⟩⟩
    | some instructor =>
      simp only [hinstr]
      cases hscan : scanCandidates data st session instructor
          (feasibleLookup (buildFeasibleCandidates data
            (expand_course_sessions data.courses)) session.session_id) with
      | none =>
        simp only [hscan]
        exact ⟨hfeas, ⟨hrn, hro⟩, ⟨hin, hio⟩⟩
      | some r =>
        obtain ⟨⟨room_id, slot_id⟩, sc⟩ := r
        simp only [hscan]
        cases hslot : pyGet TimeSlot.id data.time_slots slot_id with
        | none =>
          simp only [hslot]
          exact ⟨hfeas, ⟨hrn, hro⟩, ⟨hin, hio⟩⟩
        | some slot =>
          simp only [hslot]
          obtain ⟨hcheck, hcmem⟩ := scanCandidates_some_mem data st session instructor
            _ _ _ hscan
          obtain ⟨hnotocc1a, hnotocc2a⟩ := candidateCheck_not_occupied data st session
            instructor _ _ hcheck
          have hnotocc1 : (room_id, slot_id) ∉ st.occupied_room_slot := hnotocc1a
          have hnotocc2 : (session.instructor_id, slot_id) ∉ st.occupied_instructor_slot :=
            hnotocc2a
          have hsession : ∃ s0, pyGet CourseSession.session_id
              (expand_course_sessions data.courses) session.session_id = some s0 ∧
              (room_id, slot_id) ∈ candidateOptions data s0 := by
            have hlook := feasibleLookup_spec data (expand_course_sessions data.courses)
              session.session_id
            cases hg : pyGet CourseSession.session_id (expand_course_sessions data.courses)
                session.session_id with
            | none =>
              rw [hg] at hlook
              rw [hlook] at hcmem
              exact absurd hcmem (List.not_mem_nil _)
            | some s0 =>
              rw [hg] at hlook
              rw [hlook] at hcmem
              exact ⟨s0, rfl, hcmem⟩
          obtain ⟨s0, hs0, hs0mem⟩ := hsession
          obtain ⟨room, hroomget, hcap, hfeat⟩ := candidateOptions_mem data s0 _ hs0mem
          refine ⟨?_, ⟨?_, ?_⟩, ⟨?_, ?_⟩⟩
          · intro a ha
            rcases List.mem_append.mp ha with ha | ha
            · exact hfeas a ha
            · simp only [List.mem_singleton] at ha
              subst ha
              exact ⟨s0, hs0, room, hroomget, hcap, hfeat⟩
          · rw [List.map_append, List.map_cons, List.map_nil, List.nodup_append]
            refine ⟨hrn, List.nodup_singleton _, ?_⟩
            intro p hp hp2
            simp only [List.mem_singleton] at hp2
            subst hp2
            rcases List.mem_map.mp hp with ⟨a, ha, hpa⟩
            have hpa2 : (a.room_id, a.time_slot_id) = (room_id, slot_id) := hpa
            exact hnotocc1 (hpa2 ▸ hro a ha)
          · intro a ha
            rcases List.mem_append.mp ha with ha | ha
            · exact List.mem_append.mpr (Or.inl (hro a ha))
            · simp only [List.mem_singleton] at ha
              subst ha
              exact List.mem_append.mpr (Or.inr (List.mem_singleton.mpr rfl))
          · rw [List.map_append, List.map_cons, List.map_nil, List.nodup_append]
            refine ⟨hin, List.nodup_singleton _, ?_⟩
            intro p hp hp2
            simp only [List.mem_singleton] at hp2
            subst hp2
            rcases List.mem_map.mp hp with ⟨a, ha, hpa⟩
            have hpa2 : (a.instructor_id, a.time_slot_id) = (session.instructor_id, slot_id) :=
              hpa
            exact hnotocc2 (hpa2 ▸ hio a ha)
          · intro a ha
            rcases List.mem_append.mp ha with ha | ha
            · exact List.mem_append.mpr (Or.inl (hio a ha))
            · simp only [List.mem_singleton] at ha
              subst ha
              exact List.mem_append.mpr (Or.inr (List.mem_singleton.mpr rfl))

theorem heuristic_fold_inv (data : SchedulingInput) :
    ∀ (l : List CourseSession) (st : HState), HInv data st →
      HInv data (l.foldl (heuristicStep data
        (buildFeasibleCandidates data (expand_course_sessions data.courses))) st) := by
  intro l
  induction l with
  | nil => intro st h; exact h
  | cons s t ih =>
    intro st h
    rw [List.foldl_cons]
    exact ih _ (heuristicStep_preserves data s st h)

theorem solve_with_heuristic_assignments (data : SchedulingInput) (rt : ℚ) :
    (solve_with_heuristic data rt).assignments =
      (((expand_course_sessions data.courses).insertionSort
          (sessionLe (buildFeasibleCandidates data (expand_course_sessions data.courses)))).foldl
        (heuristicStep data (buildFeasibleCandidates data (expand_course_sessions data.courses)))
        initHState).assignments := by
  unfold solve_with_heuristic
  dsimp only
  split <;> rfl

/-- C1: validating the heuristic solver's own output never reports a
ROOM_TIME_CONFLICT, INSTRUCTOR_TIME_CONFLICT, ROOM_CAPACITY_VIOLATION or
ROOM_FEATURE_VIOLATION issue: the report contains zero issues with any of
those four codes, for every scheduling input (and every measured runtime). -/
theorem c1_heuristic_validates_clean (data : SchedulingInput) (rt : ℚ) :
    (validate_schedule data (solve_with_heuristic data rt).assignments).issues.countP
      badSolverCode = 0 := by
  rw [solve_with_heuristic_assignments]
  set asg := (((expand_course_sessions data.courses).insertionSort
      (sessionLe (buildFeasibleCandidates data (expand_course_sessions data.courses)))).foldl
    (heuristicStep data (buildFeasibleCandidates data (expand_course_sessions data.courses)))
    initHState).assignments with hasg
  have hInv : HInv data (((expand_course_sessions data.courses).insertionSort
      (sessionLe (buildFeasibleCandidates data (expand_course_sessions data.courses)))).foldl
    (heuristicStep data (buildFeasibleCandidates data (expand_course_sessions data.courses)))
    initHState) :=
    heuristic_fold_inv data _ initHState
      (by exact ⟨by intro a ha; exact absurd ha (List.not_mem_nil a),
        ⟨List.nodup_nil, by intro a ha; exact absurd ha (List.not_mem_nil a)⟩,
        ⟨List.nodup_nil, by intro a ha; exact absurd ha (List.not_mem_nil a)⟩⟩)
  obtain ⟨hfeas, ⟨hrn, _⟩, ⟨hin, _⟩⟩ := hInv
  rw [validate_schedule_issues]
  set final := asg.foldl (validateStep data) ⟨[], [], [], []⟩ with hfinal
  have husage := validate_fold_usage_short data asg ⟨[], [], [], []⟩
    (by intro p hp; exact absurd hp (List.not_mem_nil p))
    (by intro p hp; exact absurd hp (List.not_mem_nil p))
    hrn
    (by intro p hp; exact absurd hp (List.not_mem_nil p))
    (by intro p hp; exact absurd hp (List.not_mem_nil p))
    hin
  rw [List.countP_append, List.countP_append, List.countP_append]
  have h1 : final.issues.countP badSolverCode = 0 := by
    rw [List.countP_eq_zero]
    intro i hi
    have := validate_fold_issues_no_bad data asg ⟨[], [], [], []⟩
      (by intro i2 hi2; exact absurd hi2 (List.not_mem_nil i2)) hfeas i hi
    simp [this]
  have h2 : roomConflictIssues final = [] := roomConflictIssues_nil final husage.1
  have h3 : instructorConflictIssues final = [] := instructorConflictIssues_nil final husage.2
  have h4 : (missingSessionIssues data final).countP badSolverCode = 0 := by
    rw [List.countP_eq_zero]
    intro i hi
    have := missingSessionIssues_no_bad data final i hi
    simp [this]
  rw [h1, h2, h3, h4]
  rfl

/-! ## Claim C2 -/

/-- C2: in auto mode the exact CP-SAT path runs first; an optimal or
feasible status is final; otherwise with fallback enabled the heuristic's
status and assignments are returned, the runtime accumulates both
attempts (the stored runtime is the 4-decimal rounding of the sum, so it
equals the sum whenever the sum is representable at that precision), and
the notes chain the exact attempt's outcome; with fallback disabled the
exact non-optimal result is returned as-is. -/
theorem c2_auto_mode_dispatch (cpSat : SchedulingInput → CpOutcome) (hr : ℚ)
    (data : SchedulingInput) :
    (((cpSat data).status = "optimal" ∨ (cpSat data).status = "feasible") →
      solve_schedule cpSat hr data "auto" =
        buildResult data (cpSat data).status "cp_sat" (cpSat data).runtime
          (cpSat data).assignments (cpSat data).notes) ∧
    (¬ ((cpSat data).status = "optimal" ∨ (cpSat data).status = "feasible") →
      data.options.enable_fallback = true →
      (solve_schedule cpSat hr data "auto" =
        buildResult data (solve_with_heuristic data hr).status "heuristic"
          ((cpSat data).runtime + (solve_with_heuristic data hr).runtime_seconds)
          (solve_with_heuristic data hr).assignments
          (["CP-SAT status: " ++ (cpSat data).status ++ ". Triggering fallback heuristic."] ++
            (cpSat data).notes ++ (solve_with_heuristic data hr).notes)) ∧
      (solve_schedule cpSat hr data "auto").1.status =
        (solve_with_heuristic data hr).status ∧
      (solve_schedule cpSat hr data "auto").1.assignments =
        (solve_with_heuristic data hr).assignments.insertionSort
          (fun a b => a.session_id ≤ b.session_id) ∧
      (pyRound 4 ((cpSat data).runtime + (solve_with_heuristic data hr).runtime_seconds) =
          (cpSat data).runtime + (solve_with_heuristic data hr).runtime_seconds →
        (solve_schedule cpSat hr data "auto").1.runtime_seconds =
          (cpSat data).runtime + (solve_with_heuristic data hr).runtime_seconds)) ∧
    (¬ ((cpSat data).status = "optimal" ∨ (cpSat data).status = "feasible") →
      data.options.enable_fallback = false →
      solve_schedule cpSat hr data "auto" =
        buildResult data (cpSat data).status "cp_sat" (cpSat data).runtime
          (cpSat data).assignments (cpSat data).notes) := by
  have hmode : ¬ (("auto" : String) = "heuristic") := by decide
  refine ⟨?_, ?_, ?_⟩
  · intro hopt
    unfold solve_schedule
    rw [if_neg hmode]
    dsimp only
    rw [if_pos hopt]
  · intro hopt hfb
    have hcond : ("auto" : String) = "auto" ∧ data.options.enable_fallback = true :=
      ⟨rfl, hfb⟩
    have hres : solve_schedule cpSat hr data "auto" =
        buildResult data (solve_with_heuristic data hr).status "heuristic"
          ((cpSat data).runtime + (solve_with_heuristic data hr).runtime_seconds)
          (solve_with_heuristic data hr).assignments
          (["CP-SAT status: " ++ (cpSat data).status ++ ". Triggering fallback heuristic."] ++
            (cpSat data).notes ++ (solve_with_heuristic data hr).notes) := by
      unfold solve_schedule
      rw [if_neg hmode]
      dsimp only
      rw [if_neg hopt, if_pos hcond]
    refine ⟨hres, ?_, ?_, ?_⟩
    · rw [hres]; rfl
    · rw [hres]; rfl
    · intro hround
      rw [hres]
      show pyRound 4 ((cpSat data).runtime + (solve_with_heuristic data hr).runtime_seconds) =
        (cpSat data).runtime + (solve_with_heuristic data hr).runtime_seconds
      exact hround
  · intro hopt hfb
    have hcond : ¬ (("auto" : String) = "auto" ∧ data.options.enable_fallback = true) := by
      intro hc
      rw [hfb] at hc
      exact Bool.noConfusion hc.2
    unfold solve_schedule
    rw [if_neg hmode]
    dsimp only
    rw [if_neg hopt, if_neg hcond]

/-- C2 witness: the dispatch theorem applied to a concrete infeasible
exact attempt with fallback enabled; the runtime is the exact sum. -/
theorem c2_auto_mode_dispatch_witness :
    (solve_schedule c2CpSat (1/4) c2Data "auto").1.runtime_seconds = 1/2 + 1/4 := by
  have h := (c2_auto_mode_dispatch c2CpSat (1/4) c2Data).2.1 (by decide) (by decide)
  refine h.2.2.2 ?_
  have hx : (c2CpSat c2Data).runtime + (solve_with_heuristic c2Data (1/4)).runtime_seconds =
      3/4 := by
    show (1:ℚ)/2 + 1/4 = 3/4
    norm_num
  rw [hx]
  unfold pyRound
  rw [show ((3:ℚ)/4 * 10 ^ 4) = ((7500 : ℤ) : ℚ) by norm_num, round_intCast]
  norm_num

/-! ## Claim C9 -/

theorem nodup_subset_length_le (l l2 : List String) (hnd : l.Nodup)
    (hsub : ∀ x ∈ l, x ∈ l2) : l.length ≤ l2.length := by
  classical
  calc l.length = l.toFinset.card := (List.toFinset_card_of_nodup hnd).symm
    _ ≤ l2.toFinset.card := Finset.card_le_card (by
        intro x hx
        rw [List.mem_toFinset] at hx ⊢
        exact hsub x hx)
    _ ≤ l2.length := List.toFinset_card_le l2

theorem heuristicStep_assignments_le (data : SchedulingInput)
    (feasible : List (String × List (String × String))) (st : HState)
    (session : CourseSession) :
    (heuristicStep data feasible st session).assignments.length ≤
      st.assignments.length + 1 := by
  rw [heuristicStep_unfold]
  split
  · show st.assignments.length ≤ st.assignments.length + 1
    omega
  · cases hinstr : pyGet Instructor.id data.instructors session.instructor_id with
    | none =>
      simp only [hinstr]
      show st.assignments.length ≤ st.assignments.length + 1
      omega
    | some instructor =>
      simp only [hinstr]
      cases hscan : scanCandidates data st session instructor
          (feasibleLookup feasible session.session_id) with
      | none =>
        simp only [hscan]
        show st.assignments.length ≤ st.assignments.length + 1
        omega
      | some r =>
        obtain ⟨⟨room_id, slot_id⟩, sc⟩ := r
        simp only [hscan]
        cases hslot : pyGet TimeSlot.id data.time_slots slot_id with
        | none =>
          simp only [hslot]
          omega
        | some slot =>
          simp only [hslot]
          show (st.assignments ++
            [({ session_id := session.session_id, course_id := session.course_id,
                instructor_id := session.instructor_id, room_id := room_id,
                time_slot_id := slot_id } : ScheduleAssignment)]).length ≤
            st.assignments.length + 1
          rw [List.length_append]
          simp

theorem heuristic_fold_assignments_le (data : SchedulingInput)
    (feasible : List (String × List (String × String))) :
    ∀ (l : List CourseSession) (st : HState),
      ((l.foldl (heuristicStep data feasible) st).assignments).length ≤
        st.assignments.length + l.length := by
  intro l
  induction l with
  | nil => intro st; simp
  | cons s t ih =>
    intro st
    rw [List.foldl_cons, List.length_cons]
    calc ((t.foldl (heuristicStep data feasible)
          (heuristicStep data feasible st s)).assignments).length ≤
        (heuristicStep data feasible st s).assignments.length + t.length := ih _
      _ ≤ (st.assignments.length + 1) + t.length := by
          have := heuristicStep_assignments_le data feasible st s
          omega
      _ = st.assignments.length + (t.length + 1) := by omega

theorem heuristic_assignments_le (data : SchedulingInput) (rt : ℚ) :
    (solve_with_heuristic data rt).assignments.length ≤
      (expand_course_sessions data.courses).length := by
  rw [solve_with_heuristic_assignments]
  have h := heuristic_fold_assignments_le data
    (buildFeasibleCandidates data (expand_course_sessions data.courses))
    ((expand_course_sessions data.courses).insertionSort
      (sessionLe (buildFeasibleCandidates data (expand_course_sessions data.courses))))
    initHState
  have hperm := List.perm_insertionSort
    (sessionLe (buildFeasibleCandidates data (expand_course_sessions data.courses)))
    (expand_course_sessions data.courses)
  rw [hperm.length_eq] at h
  simpa [initHState] using h

theorem buildResult_metrics_facts (data : SchedulingInput) (status nm : String)
    (rt : ℚ) (asg : List ScheduleAssignment) (notes : List String) :
    (buildResult data status nm rt asg notes).1.metrics.sessions_required =
      (expand_course_sessions data.courses).length ∧
    (buildResult data status nm rt asg notes).1.metrics.sessions_scheduled = asg.length ∧
    (asg.length = 0 →
      (buildResult data status nm rt asg notes).1.metrics.coverage_pct = 0) := by
  refine ⟨rfl, rfl, ?_⟩
  intro h0
  show (build_metrics data asg (validate_schedule data asg)
    (compute_objective_breakdown data asg data.options.objective_weights)).coverage_pct = 0
  unfold build_metrics
  dsimp only
  rw [h0]
  split <;> simp [pyRound_zero]

/-- C9: for every input and every result of `solve_schedule` in any mode —
assuming the external engine contract that decoded CP-SAT assignments
cover each expanded session at most once — the metrics satisfy
`sessions_scheduled ≤ sessions_required`, and `coverage_pct` is 0 whenever
`sessions_scheduled` is 0. -/
theorem c9_coverage_monotone (cpSat : SchedulingInput → CpOutcome) (hr : ℚ)
    (data : SchedulingInput) (mode : String)
    (hcp : ((cpSat data).assignments.map (fun a => a.session_id)).Nodup ∧
      ∀ a ∈ (cpSat data).assignments, a.session_id ∈
        (expand_course_sessions data.courses).map CourseSession.session_id) :
    (solve_schedule cpSat hr data mode).1.metrics.sessions_scheduled ≤
      (solve_schedule cpSat hr data mode).1.metrics.sessions_required ∧
    ((solve_schedule cpSat hr data mode).1.metrics.sessions_scheduled = 0 →
      (solve_schedule cpSat hr data mode).1.metrics.coverage_pct = 0) := by
  have hcpLen : (cpSat data).assignments.length ≤
      (expand_course_sessions data.courses).length := by
    have h := nodup_subset_length_le ((cpSat data).assignments.map (fun a => a.session_id))
      ((expand_course_sessions data.courses).map CourseSession.session_id)
      hcp.1 (by
        intro x hx
        rcases List.mem_map.mp hx with ⟨a, ha, hax⟩
        rw [← hax]
        exact hcp.2 a ha)
    rw [List.length_map, List.length_map] at h
    exact h
  unfold solve_schedule
  split
  · obtain ⟨h1, h2, h3⟩ := buildResult_metrics_facts data
      (solve_with_heuristic data hr).status "heuristic"
      (solve_with_heuristic data hr).runtime_seconds
      (solve_with_heuristic data hr).assignments (solve_with_heuristic data hr).notes
    rw [h1, h2]
    exact ⟨heuristic_assignments_le data hr, fun h0 => h3 h0⟩
  · dsimp only
    split
    · obtain ⟨h1, h2, h3⟩ := buildResult_metrics_facts data (cpSat data).status "cp_sat"
        (cpSat data).runtime (cpSat data).assignments (cpSat data).notes
      rw [h1, h2]
      exact ⟨hcpLen, fun h0 => h3 h0⟩
    · split
      · obtain ⟨h1, h2, h3⟩ := buildResult_metrics_facts data
          (solve_with_heuristic data hr).status "heuristic"
          ((cpSat data).runtime + (solve_with_heuristic data hr).runtime_seconds)
          (solve_with_heuristic data hr).assignments
          (["CP-SAT status: " ++ (cpSat data).status ++ ". Triggering fallback heuristic."] ++
            (cpSat data).notes ++ (solve_with_heuristic data hr).notes)
        rw [h1, h2]
        exact ⟨heuristic_assignments_le data hr, fun h0 => h3 h0⟩
      · obtain ⟨h1, h2, h3⟩ := buildResult_metrics_facts data (cpSat data).status "cp_sat"
          (cpSat data).runtime (cpSat data).assignments (cpSat data).notes
        rw [h1, h2]
        exact ⟨hcpLen, fun h0 => h3 h0⟩

/-- C9 witness: the coverage theorem applied to a concrete input with an
infeasible exact attempt. -/
theorem c9_coverage_monotone_witness :
    (solve_schedule c2CpSat (1/4) c2Data "auto").1.metrics.sessions_scheduled ≤
      (solve_schedule c2CpSat (1/4) c2Data "auto").1.metrics.sessions_required ∧
    ((solve_schedule c2CpSat (1/4) c2Data "auto").1.metrics.sessions_scheduled = 0 →
      (solve_schedule c2CpSat (1/4) c2Data "auto").1.metrics.coverage_pct = 0) :=
  c9_coverage_monotone c2CpSat (1/4) c2Data "auto" ⟨by decide, by decide⟩

/-! ## Claim C4

The exact model's objective (solver.py `_solve_with_cp_sat`, lines
99-211) evaluated at a solution that assigns each expanded session exactly
one feasible triple.  Per chosen triple the builder emits
`100 * w_ip` when the slot is on the session instructor's preferred list
(lines 146-147, 201-203), `w_re * floor(100 * enrollment / capacity)`
(lines 149-150, 204), `w_cp * priority * 20` when the slot is on the
course's preferred list (lines 152-153, 205), and `-100 * w_cc` for every
(cluster-tag, day) day-used indicator that is true — an indicator exists
for tags carried by more than one expanded session (lines 103, 110-111,
188-196) and is true exactly when some chosen triple of that tag lands on
that day. -/

theorem countsGet_countsAdd (m : List (String × Nat)) (t t2 : String) :
    countsGet (countsAdd m t) t2 =
      if t2 = t then countsGet m t2 + 1 else countsGet m t2 := by
  unfold countsAdd countsGet
  by_cases hany : m.any (fun p => p.1 = t)
  · rw [if_pos (by simpa using hany)]
    have hfst : ∀ p : String × Nat,
        ((if p.1 = t then (p.1, p.2 + 1) else p) : String × Nat).1 = p.1 := by
      intro p
      by_cases h : p.1 = t <;> simp [h]
    rw [List.find?_map]
    have hcomp : ((fun p : String × Nat => decide (p.1 = t2)) ∘
        (fun p => if p.1 = t then (p.1, p.2 + 1) else p)) =
        (fun p : String × Nat => decide (p.1 = t2)) := by
      funext p
      simp only [Function.comp_apply, hfst p]
    rw [hcomp]
    by_cases ht : t2 = t
    · subst ht
      have hsome : (m.find? (fun p => decide (p.1 = t2))).isSome := by
        rw [List.find?_isSome]
        rcases List.any_eq_true.mp hany with ⟨p, hp, hpt⟩
        exact ⟨p, hp, by simpa using hpt⟩
      obtain ⟨p0, hp0⟩ := Option.isSome_iff_exists.mp hsome
      have hp0t : p0.1 = t2 := by
        have := List.find?_some hp0
        simpa using this
      rw [hp0, if_pos rfl]
      simp only [Option.map]
      simp [hp0t]
    · rw [if_neg ht]
      cases hf : m.find? (fun p => decide (p.1 = t2)) with
      | none => rfl
      | some p0 =>
        have hp0t : p0.1 = t2 := by
          have := List.find?_some hf
          simpa using this
        simp only [Option.map]
        have hne : p0.1 ≠ t := by rw [hp0t]; exact ht
        simp [hne]
  · rw [if_neg (by simpa using hany)]
    have hnone : m.find? (fun p => decide (p.1 = t)) = none := by
      rw [List.find?_eq_none]
      intro p hp
      simp only [decide_eq_true_eq]
      intro hpt
      exact hany (List.any_eq_true.mpr ⟨p, hp, by simpa using hpt⟩)
    rw [List.find?_append]
    by_cases ht : t2 = t
    · subst ht
      rw [hnone]
      simp
    · cases hf : m.find? (fun p => decide (p.1 = t2)) with
      | none =>
        simp only [Option.none_or]
        have : (([(t, 1)] : List (String × Nat)).find? (fun p => decide (p.1 = t2))) = none := by
          rw [List.find?_eq_none]
          intro p hp
          simp only [List.mem_singleton] at hp
          subst hp
          simpa using fun h => ht h.symm
        rw [this]
        simp [ht]
      | some p0 => simp [ht]

theorem daysOf_clusterDaysAdd (m : List (String × List String)) (t d : String)
    (t2 : String) :
    daysOf (clusterDaysAdd m t d) t2 =
      if t2 = t then setAdd (daysOf m t2) d else daysOf m t2 := by
  unfold clusterDaysAdd daysOf
  by_cases hany : m.any (fun p => p.1 = t)
  · rw [if_pos (by simpa using hany)]
    have hfst : ∀ p : String × List String,
        ((if p.1 = t then (p.1, setAdd p.2 d) else p) : String × List String).1 = p.1 := by
      intro p
      by_cases h : p.1 = t <;> simp [h]
    rw [List.find?_map]
    have hcomp : ((fun p : String × List String => decide (p.1 = t2)) ∘
        (fun p => if p.1 = t then (p.1, setAdd p.2 d) else p)) =
        (fun p : String × List String => decide (p.1 = t2)) := by
      funext p
      simp only [Function.comp_apply, hfst p]
    rw [hcomp]
    by_cases ht : t2 = t
    · subst ht
      have hsome : (m.find? (fun p => decide (p.1 = t2))).isSome := by
        rw [List.find?_isSome]
        rcases List.any_eq_true.mp hany with ⟨p, hp, hpt⟩
        exact ⟨p, hp, by simpa using hpt⟩
      obtain ⟨p0, hp0⟩ := Option.isSome_iff_exists.mp hsome
      have hp0t : p0.1 = t2 := by
        have := List.find?_some hp0
        simpa using this
      rw [hp0, if_pos rfl]
      simp only [Option.map]
      simp [hp0t]
    · rw [if_neg ht]
      cases hf : m.find? (fun p => decide (p.1 = t2)) with
      | none => rfl
      | some p0 =>
        have hp0t : p0.1 = t2 := by
          have := List.find?_some hf
          simpa using this
        simp only [Option.map]
        have hne : p0.1 ≠ t := by rw [hp0t]; exact ht
        simp [hne]
  · rw [if_neg (by simpa using hany)]
    have hnone : m.find? (fun p => decide (p.1 = t)) = none := by
      rw [List.find?_eq_none]
      intro p hp
      simp only [decide_eq_true_eq]
      intro hpt
      exact hany (List.any_eq_true.mpr ⟨p, hp, by simpa using hpt⟩)
    rw [List.find?_append]
    by_cases ht : t2 = t
    · subst ht
      rw [hnone]
      have hdays : daysOf m t2 = [] := by unfold daysOf; rw [hnone]
      simp only [Option.none_or]
      have hfind : (([(t2, [d])] : List (String × List String)).find?
          (fun p => decide (p.1 = t2))) = some (t2, [d]) := by
        simp [List.find?]
      rw [hfind]
      simp [setAdd]
    · cases hf : m.find? (fun p => decide (p.1 = t2)) with
      | none =>
        simp only [Option.none_or]
        have : (([(t, [d])] : List (String × List String)).find?
            (fun p => decide (p.1 = t2))) = none := by
          rw [List.find?_eq_none]
          intro p hp
          simp only [List.mem_singleton] at hp
          subst hp
          simpa using fun h => ht h.symm
        rw [this]
        simp [ht]
      | some p0 => simp [ht]

theorem setAdd_nodup (s : List String) (x : String) (h : s.Nodup) : (setAdd s x).Nodup := by
  unfold setAdd
  split
  · exact h
  · next hx =>
    rw [List.nodup_append]
    exact ⟨h, List.nodup_singleton x, fun y hy hy2 => by
      simp only [List.mem_singleton] at hy2
      exact hx (hy2 ▸ hy)⟩

theorem setAdd_mem (s : List String) (x d : String) :
    d ∈ setAdd s x ↔ d ∈ s ∨ d = x := by
  unfold setAdd
  split
  · next hx =>
    constructor
    · exact Or.inl
    · intro h
      rcases h with h | h
      · exact h
      · exact h ▸ hx
  · simp [List.mem_append]

theorem clusterDaysAdd_wf (m : List (String × List String)) (t d : String)
    (hk : (m.map Prod.fst).Nodup) (hd : ∀ p ∈ m, p.2.Nodup) :
    (((clusterDaysAdd m t d).map Prod.fst).Nodup) ∧
      ∀ p ∈ clusterDaysAdd m t d, p.2.Nodup := by
  unfold clusterDaysAdd
  split
  · constructor
    · rw [List.map_map]
      have hcomp : (Prod.fst ∘ fun p : String × List String =>
          if p.1 = t then (p.1, setAdd p.2 d) else p) = Prod.fst := by
        funext p
        by_cases h : p.1 = t <;> simp [h]
      rw [hcomp]
      exact hk
    · intro p hp
      rcases List.mem_map.mp hp with ⟨p0, hp0, hpp⟩
      by_cases h : p0.1 = t
      · rw [← hpp]
        simp only [h, if_true]
        exact setAdd_nodup p0.2 d (hd p0 hp0)
      · rw [← hpp]
        simp only [h, if_false]
        exact hd p0 hp0
  · next hany =>
    constructor
    · rw [List.map_append]
      rw [List.nodup_append]
      refine ⟨hk, by simp, ?_⟩
      intro k hkm hk2
      simp only [List.map_cons, List.map_nil, List.mem_singleton] at hk2
      subst hk2
      rcases List.mem_map.mp hkm with ⟨p, hp, hpk⟩
      exact hany (List.any_eq_true.mpr ⟨p, hp, by simp [hpk]⟩)
    · intro p hp
      rcases List.mem_append.mp hp with hp | hp
      · exact hd p hp
      · simp only [List.mem_singleton] at hp
        subst hp
        exact List.nodup_singleton d

theorem breakdown_fold_scalars (data : SchedulingInput) (w : ObjectiveWeights) :
    ∀ (sol : List ScheduleAssignment) (st : BreakdownState),
      (∀ a ∈ sol, c4Resolvable data a) →
      ((sol.foldl (breakdownStep data w) st).instructor_component =
          st.instructor_component + (sol.map (cpIpTerm data w)).sum ∧
        (sol.foldl (breakdownStep data w) st).room_component =
          st.room_component + (sol.map (cpReTerm data w)).sum ∧
        (sol.foldl (breakdownStep data w) st).priority_component =
          st.priority_component + (sol.map (cpPrTerm data w)).sum) := by
  intro sol
  induction sol with
  | nil => intro st _; simp
  | cons a t ih =>
    intro st hres
    obtain ⟨s, hs, hiid, hinstrS, hroomS, hslotS⟩ := hres a (List.mem_cons_self a t)
    obtain ⟨instructor, hinstr⟩ := Option.isSome_iff_exists.mp hinstrS
    obtain ⟨room, hroom⟩ := Option.isSome_iff_exists.mp hroomS
    obtain ⟨slot, hslot⟩ := Option.isSome_iff_exists.mp hslotS
    have hinstr2 : pyGet Instructor.id data.instructors a.instructor_id =
        some instructor := by rw [hiid]; exact hinstr
    rw [List.foldl_cons]
    obtain ⟨ih1, ih2, ih3⟩ := ih (breakdownStep data w st a)
      (fun b hb => hres b (List.mem_cons_of_mem a hb))
    rw [List.map_cons, List.sum_cons, List.map_cons, List.sum_cons,
      List.map_cons, List.sum_cons]
    have hstep : (breakdownStep data w st a).instructor_component =
        st.instructor_component + cpIpTerm data w a ∧
        (breakdownStep data w st a).room_component =
          st.room_component + cpReTerm data w a ∧
        (breakdownStep data w st a).priority_component =
          st.priority_component + cpPrTerm data w a := by
      unfold breakdownStep cpIpTerm cpReTerm cpPrTerm
      simp only [hs, hinstr2, hinstr, hroom, hslot]
      refine ⟨?_, ?_, ?_⟩
      · by_cases hp : a.time_slot_id ∈ instructor.preferred_time_slots
        · simp [hp]
        · simp [hp]
      · trivial
      · by_cases hp : s.preferred_time_slots ≠ [] ∧
            a.time_slot_id ∈ s.preferred_time_slots
        · simp [hp]
        · simp [hp]
    rw [ih1, ih2, ih3, hstep.1, hstep.2.1, hstep.2.2]
    refine ⟨by ring, by ring, by ring⟩

theorem breakdown_fold_cluster (data : SchedulingInput) (w : ObjectiveWeights) :
    ∀ (sol : List ScheduleAssignment) (st : BreakdownState),
      (∀ a ∈ sol, c4Resolvable data a) →
      ((st.cluster_days.map Prod.fst).Nodup ∧ ∀ p ∈ st.cluster_days, p.2.Nodup) →
      (((sol.foldl (breakdownStep data w) st).cluster_days.map Prod.fst).Nodup ∧
        ∀ p ∈ (sol.foldl (breakdownStep data w) st).cluster_days, p.2.Nodup) ∧
      (∀ tg, countsGet (sol.foldl (breakdownStep data w) st).cluster_counts tg =
        countsGet st.cluster_counts tg +
          sol.countP (fun a => decide ((tagDayOf data a).map Prod.fst = some tg))) ∧
      (∀ tg d, d ∈ daysOf (sol.foldl (breakdownStep data w) st).cluster_days tg ↔
        (d ∈ daysOf st.cluster_days tg ∨ (tg, d) ∈ sol.filterMap (tagDayOf data))) := by
  intro sol
  induction sol with
  | nil =>
    intro st _ hwf
    refine ⟨hwf, ?_, ?_⟩
    · intro tg; simp
    · intro tg d; simp
  | cons a t ih =>
    intro st hres hwf
    obtain ⟨s, hs, hiid, hinstrS, hroomS, hslotS⟩ := hres a (List.mem_cons_self a t)
    obtain ⟨instructor, hinstr⟩ := Option.isSome_iff_exists.mp hinstrS
    obtain ⟨room, hroom⟩ := Option.isSome_iff_exists.mp hroomS
    obtain ⟨slot, hslot⟩ := Option.isSome_iff_exists.mp hslotS
    have hinstr2 : pyGet Instructor.id data.instructors a.instructor_id =
        some instructor := by rw [hiid]; exact hinstr
    rw [List.foldl_cons]
    have htag : tagDayOf data a =
        (match s.cluster_tag with
         | some tag => if tag ≠ "" then some (tag, slot.day) else none
         | none => none) := by
      unfold tagDayOf
      simp only [hs, hslot]
    have hstepState : (breakdownStep data w st a).cluster_days =
        (match s.cluster_tag with
         | some tag =>
           if tag ≠ "" then clusterDaysAdd st.cluster_days tag slot.day
           else st.cluster_days
         | none => st.cluster_days) ∧
        (breakdownStep data w st a).cluster_counts =
        (match s.cluster_tag with
         | some tag =>
           if tag ≠ "" then countsAdd st.cluster_counts tag else st.cluster_counts
         | none => st.cluster_counts) := by
      unfold breakdownStep
      simp only [hs, hinstr2, hroom, hslot]
      first
      | exact ⟨rfl, rfl⟩
      | exact ⟨trivial, trivial⟩
    cases htagv : s.cluster_tag with
    | none =>
      simp only [htagv] at htag hstepState
      have h1 : (breakdownStep data w st a).cluster_days = st.cluster_days := hstepState.1
      have h2 : (breakdownStep data w st a).cluster_counts = st.cluster_counts :=
        hstepState.2
      obtain ⟨hwf2, hcount, hdays⟩ := ih (breakdownStep data w st a)
        (fun b hb => hres b (List.mem_cons_of_mem a hb)) (by rw [h1]; exact hwf)
      refine ⟨hwf2, ?_, ?_⟩
      · intro tg
        rw [hcount tg, h2, List.countP_cons]
        simp [htag]
      · intro tg d
        rw [hdays tg d, h1, List.filterMap_cons]
        simp [htag]
    | some tag =>
      simp only [htagv] at htag hstepState
      by_cases htruthy : tag ≠ ""
      · rw [if_pos htruthy] at htag
        have h1 : (breakdownStep data w st a).cluster_days =
            clusterDaysAdd st.cluster_days tag slot.day := by
          rw [hstepState.1, if_pos htruthy]
        have h2 : (breakdownStep data w st a).cluster_counts =
            countsAdd st.cluster_counts tag := by
          rw [hstepState.2, if_pos htruthy]
        have hwfNew := clusterDaysAdd_wf st.cluster_days tag slot.day hwf.1 hwf.2
        obtain ⟨hwf2, hcount, hdays⟩ := ih (breakdownStep data w st a)
          (fun b hb => hres b (List.mem_cons_of_mem a hb)) (by rw [h1]; exact hwfNew)
        refine ⟨hwf2, ?_, ?_⟩
        · intro tg
          rw [hcount tg, h2, countsGet_countsAdd, List.countP_cons]
          by_cases htg : tg = tag
          · subst htg
            simp [htag]
            omega
          · have hne : ¬ (tag = tg) := fun hc => htg hc.symm
            simp [htag, htg, hne]
        · intro tg d
          rw [hdays tg d, h1, daysOf_clusterDaysAdd, List.filterMap_cons]
          by_cases htg : tg = tag
          · subst htg
            rw [if_pos rfl]
            rw [htag]
            simp only [List.mem_cons, setAdd_mem]
            constructor
            · intro h
              rcases h with (h | h) | h
              · exact Or.inl h
              · exact Or.inr (Or.inl (by rw [h]))
              · exact Or.inr (Or.inr h)
            · intro h
              rcases h with h | h | h
              · exact Or.inl (Or.inl h)
              · exact Or.inl (Or.inr (congrArg Prod.snd h))
              · exact Or.inr h
          · rw [if_neg htg, htag]
            simp only [List.mem_cons]
            constructor
            · intro h
              rcases h with h | h
              · exact Or.inl h
              · exact Or.inr (Or.inr h)
            · intro h
              rcases h with h | h | h
              · exact Or.inl h
              · exfalso
                exact htg (congrArg Prod.fst h)
              · exact Or.inr h
      · rw [if_neg htruthy] at htag
        have h1 : (breakdownStep data w st a).cluster_days = st.cluster_days := by
          rw [hstepState.1, if_neg htruthy]
        have h2 : (breakdownStep data w st a).cluster_counts = st.cluster_counts := by
          rw [hstepState.2, if_neg htruthy]
        obtain ⟨hwf2, hcount, hdays⟩ := ih (breakdownStep data w st a)
          (fun b hb => hres b (List.mem_cons_of_mem a hb)) (by rw [h1]; exact hwf)
        refine ⟨hwf2, ?_, ?_⟩
        · intro tg
          rw [hcount tg, h2, List.countP_cons]
          simp [htag]
        · intro tg d
          rw [hdays tg d, h1, List.filterMap_cons]
          simp [htag]

/-- C8 witness: the metrics theorem applied to a concrete schedule. -/
theorem c8_build_metrics_spec_witness :
    build_metrics c8Data [c8Assignment] ⟨true, []⟩ ⟨0, 0, 0, 0, 0⟩ =
      { sessions_required := (expand_course_sessions c8Data.courses).length
        sessions_scheduled := [c8Assignment].length
        coverage_pct :=
          if (expand_course_sessions c8Data.courses).length = 0 then 0
          else pyRound 2 (([c8Assignment].length : ℚ) /
            ((expand_course_sessions c8Data.courses).length : ℚ) * 100)
        room_utilization_pct :=
          if ([c8Assignment].filter (c8Eligible c8Data)).length = 0 then 0
          else pyRound 2 ((([c8Assignment].filter (c8Eligible c8Data)).map
              (c8UtilValue c8Data)).sum /
            (([c8Assignment].filter (c8Eligible c8Data)).length : ℚ) * 100)
        instructor_preference_pct :=
          if [c8Assignment].length = 0 then 0
          else pyRound 2 (([c8Assignment].countP (c8PrefHit c8Data) : ℚ) /
            ([c8Assignment].length : ℚ) * 100)
        hard_violations := (⟨true, []⟩ : ValidationReport).issues.countP
          (fun i => i.level = "error")
        objective_breakdown := ⟨0, 0, 0, 0, 0⟩ } :=
  c8_build_metrics_spec c8Data [c8Assignment] ⟨true, []⟩ ⟨0, 0, 0, 0, 0⟩ (by decide)

/-- With pairwise-distinct keys, `daysOf` at an entry's key returns that
entry's day set. -/
theorem daysOf_entry (cd : List (String × List String))
    (hk : (cd.map Prod.fst).Nodup) (p : String × List String) (hp : p ∈ cd) :
    daysOf cd p.1 = p.2 := by
  unfold daysOf
  induction cd with
  | nil => cases hp
  | cons q t ih =>
    rcases List.mem_cons.mp hp with h | h
    · subst h
      rw [List.find?_cons_of_pos _ (by simp)]
    · have hk2 : (q.1 :: t.map Prod.fst).Nodup := by simpa using hk
      have hq : q.1 ≠ p.1 := by
        intro hc
        exact (List.nodup_cons.mp hk2).1 (hc ▸ List.mem_map_of_mem Prod.fst h)
      rw [List.find?_cons_of_neg _ (by simpa using hq)]
      exact ih (List.nodup_cons.mp hk2).2 h

theorem daysOf_mem (cd : List (String × List String)) (tg d : String)
    (hd : d ∈ daysOf cd tg) : ∃ p, p ∈ cd ∧ p.1 = tg ∧ d ∈ p.2 := by
  unfold daysOf at hd
  cases hf : cd.find? (fun p => decide (p.1 = tg)) with
  | none => rw [hf] at hd; cases hd
  | some p =>
    rw [hf] at hd
    exact ⟨p, List.mem_of_find?_eq_some hf, by simpa using List.find?_some hf, hd⟩

theorem flatPairs_nodup : ∀ (l : List (String × List String)),
    (l.map Prod.fst).Nodup → (∀ p ∈ l, p.2.Nodup) →
    (l.flatMap (fun p => p.2.map (fun d => (p.1, d)))).Nodup := by
  intro l
  induction l with
  | nil => intro _ _; simp
  | cons p t ih =>
    intro hk hv
    have hk2 : (p.1 :: t.map Prod.fst).Nodup := by simpa using hk
    rw [List.flatMap_cons, List.nodup_append]
    refine ⟨?_, ih (List.nodup_cons.mp hk2).2
      (fun r hr => hv r (List.mem_cons_of_mem p hr)), ?_⟩
    · exact (hv p (List.mem_cons_self p t)).map
        (fun d1 d2 h => congrArg Prod.snd h)
    · intro x hx hx2
      rcases List.mem_map.mp hx with ⟨d, _, rfl⟩
      rcases List.mem_flatMap.mp hx2 with ⟨r, hr, hxr⟩
      rcases List.mem_map.mp hxr with ⟨d2, _, heq⟩
      obtain ⟨r1, r2⟩ := r
      injection heq with hr1 _
      exact (List.nodup_cons.mp hk2).1
        (hr1 ▸ List.mem_map_of_mem Prod.fst hr)

theorem clusterFlat_nodup (cd : List (String × List String))
    (cc : List (String × Nat)) (hk : (cd.map Prod.fst).Nodup)
    (hv : ∀ p ∈ cd, p.2.Nodup) : (clusterFlat cd cc).Nodup := by
  unfold clusterFlat
  refine flatPairs_nodup _ ?_ ?_
  · exact hk.sublist ((List.filter_sublist cd).map Prod.fst)
  · intro p hp
    exact hv p (List.mem_of_mem_filter hp)

theorem clusterFlat_mem (cd : List (String × List String))
    (cc : List (String × Nat)) (hk : (cd.map Prod.fst).Nodup) (tg d : String) :
    (tg, d) ∈ clusterFlat cd cc ↔ (countsGet cc tg > 1 ∧ d ∈ daysOf cd tg) := by
  unfold clusterFlat
  constructor
  · intro h
    rcases List.mem_flatMap.mp h with ⟨p, hp, hpd⟩
    rcases List.mem_map.mp hpd with ⟨d0, hd0, heq⟩
    have h1 : p.1 = tg := congrArg Prod.fst heq
    have h2 : d0 = d := congrArg Prod.snd heq
    have hcnt : countsGet cc p.1 > 1 := by
      have := List.of_mem_filter hp
      simpa using this
    refine ⟨h1 ▸ hcnt, ?_⟩
    have hmem : p ∈ cd := List.mem_of_mem_filter hp
    rw [← h1, daysOf_entry cd hk p hmem]
    exact h2 ▸ hd0
  · rintro ⟨hcnt, hday⟩
    rcases daysOf_mem cd tg d hday with ⟨p, hp, hp1, hpd⟩
    refine List.mem_flatMap.mpr ⟨p, ?_, ?_⟩
    · exact List.mem_filter.mpr ⟨hp, by simpa [hp1] using hcnt⟩
    · exact List.mem_map.mpr ⟨d, hpd, by rw [hp1]⟩

theorem clusterFlat_length (cd : List (String × List String))
    (cc : List (String × Nat)) :
    ((clusterFlat cd cc).length : ℤ) =
      ((cd.filter (fun p => countsGet cc p.1 > 1)).map
        (fun p => (p.2.length : ℤ))).sum := by
  unfold clusterFlat
  rw [List.length_flatMap]
  have h1 : (List.length ∘ fun p : String × List String =>
      p.2.map (fun d => (p.1, d))) = fun p => p.2.length := by
    funext p
    simp
  rw [h1, Nat.cast_list_sum, List.map_map]
  rfl

/-- A pair survives `cpClusterPair` exactly when it is a `tagDayOf` pair
whose tag is carried by more than one expanded session. -/
theorem mem_filterMap_cpClusterPair (data : SchedulingInput)
    (sol : List ScheduleAssignment) (tg d : String) :
    (tg, d) ∈ sol.filterMap (cpClusterPair data) ↔
      ((tg, d) ∈ sol.filterMap (tagDayOf data) ∧
        clusterSessionCount (expand_course_sessions data.courses) tg > 1) := by
  simp only [List.mem_filterMap]
  constructor
  · rintro ⟨a, ha, hc⟩
    unfold cpClusterPair at hc
    cases htd : tagDayOf data a with
    | none => rw [htd] at hc; cases hc
    | some p =>
      obtain ⟨t0, d0⟩ := p
      simp only [htd] at hc
      by_cases hcnt : clusterSessionCount (expand_course_sessions data.courses) t0 > 1
      · rw [if_pos hcnt] at hc
        have ht : t0 = tg := congrArg Prod.fst (Option.some.inj hc)
        have hd : d0 = d := congrArg Prod.snd (Option.some.inj hc)
        subst ht; subst hd
        exact ⟨⟨a, ha, htd⟩, hcnt⟩
      · rw [if_neg hcnt] at hc
        cases hc
  · rintro ⟨⟨a, ha, htd⟩, hcnt⟩
    refine ⟨a, ha, ?_⟩
    unfold cpClusterPair
    simp only [htd]
    rw [if_pos hcnt]

/-- Under exact coverage of the expanded sessions, the per-tag scheduled
count collected by the breakdown fold equals the expanded-session count
of that tag. -/
theorem countP_tag_eq_clusterCount (data : SchedulingInput)
    (sol : List ScheduleAssignment)
    (hnodup : ((expand_course_sessions data.courses).map
      CourseSession.session_id).Nodup)
    (hperm : (sol.map ScheduleAssignment.session_id).Perm
      ((expand_course_sessions data.courses).map CourseSession.session_id))
    (hres : ∀ a ∈ sol, c4Resolvable data a) (tg : String) :
    sol.countP (fun a => decide ((tagDayOf data a).map Prod.fst = some tg)) =
      clusterSessionCount (expand_course_sessions data.courses) tg := by
  set qf : String → Bool := fun sid =>
    match pyGet CourseSession.session_id (expand_course_sessions data.courses) sid with
    | some s => decide (s.cluster_tag = some tg ∧ tg ≠ "")
    | none => false with hqf
  have step1 : sol.countP (fun a => decide ((tagDayOf data a).map Prod.fst = some tg)) =
      sol.countP (qf ∘ ScheduleAssignment.session_id) := by
    refine List.countP_congr ?_
    intro a ha
    obtain ⟨s, hs, _, _, _, hslotS⟩ := hres a ha
    obtain ⟨slot, hslot⟩ := Option.isSome_iff_exists.mp hslotS
    have htag : tagDayOf data a =
        (match s.cluster_tag with
         | some tag => if tag ≠ "" then some (tag, slot.day) else none
         | none => none) := by
      unfold tagDayOf
      simp only [hs, hslot]
    have hq : (qf ∘ ScheduleAssignment.session_id) a =
        decide (s.cluster_tag = some tg ∧ tg ≠ "") := by
      simp only [Function.comp_apply, hqf, hs]
    rw [hq]
    cases htg : s.cluster_tag with
    | none =>
      simp only [htag, htg]
      simp
    | some tag =>
      simp only [htag, htg]
      by_cases htr : tag ≠ ""
      · rw [if_pos htr]
        by_cases h2 : tag = tg
        · subst h2
          simp [htr]
        · simp only [Option.map]
          constructor
          · intro h
            exact absurd (Option.some.inj (of_decide_eq_true h)) h2
          · intro h
            rcases of_decide_eq_true h with ⟨h3, _⟩
            exact absurd (Option.some.inj h3) h2
      · rw [if_neg htr]
        push_neg at htr
        subst htr
        constructor
        · intro h
          cases of_decide_eq_true h
        · intro h
          rcases of_decide_eq_true h with ⟨h3, h4⟩
          exact absurd (Option.some.inj h3).symm h4
  have step2 : sol.countP (qf ∘ ScheduleAssignment.session_id) =
      (sol.map ScheduleAssignment.session_id).countP qf :=
    (List.countP_map qf ScheduleAssignment.session_id sol).symm
  have step3 : (sol.map ScheduleAssignment.session_id).countP qf =
      ((expand_course_sessions data.courses).map CourseSession.session_id).countP qf :=
    hperm.countP_eq qf
  have step4 : ((expand_course_sessions data.courses).map
      CourseSession.session_id).countP qf =
      (expand_course_sessions data.courses).countP
        (fun s => decide (s.cluster_tag = some tg ∧ tg ≠ "")) := by
    rw [List.countP_map]
    refine List.countP_congr ?_
    intro s hsE
    have hlook : pyGet CourseSession.session_id (expand_course_sessions data.courses)
        s.session_id = some s :=
      pyGet_self_of_nodup_keys CourseSession.session_id _ hnodup s hsE
    simp only [Function.comp_apply, hqf, hlook]
  rw [step1, step2, step3, step4]
  rfl

/-- C4: for an assignment list that covers exactly the expanded sessions
(ids a permutation of the pairwise-distinct expanded session ids) with
all referenced ids resolvable, `compute_objective_breakdown` returns the
same four weighted components and total as the exact model's objective
(`cpObjectiveComponents`): 100 x instructor-preference weight per
assignment on an instructor-preferred slot, room-efficiency weight times
floor(100 x enrollment / capacity) per assignment, course-priority weight
x priority x 20 per assignment on a course-preferred slot, minus 100 x
cluster-compactness weight per distinct day used by each cluster tag
carried by more than one session. -/
theorem c4_objective_breakdown_matches_exact (data : SchedulingInput)
    (w : ObjectiveWeights) (sol : List ScheduleAssignment)
    (hnodup : ((expand_course_sessions data.courses).map
      CourseSession.session_id).Nodup)
    (hperm : (sol.map ScheduleAssignment.session_id).Perm
      ((expand_course_sessions data.courses).map CourseSession.session_id))
    (hres : ∀ a ∈ sol, c4Resolvable data a) :
    compute_objective_breakdown data sol w =
      { instructor_preference := ((cpObjectiveComponents data w sol).1 : ℚ)
        room_efficiency := ((cpObjectiveComponents data w sol).2.1 : ℚ)
        course_priority := ((cpObjectiveComponents data w sol).2.2.1 : ℚ)
        cluster_compactness := ((cpObjectiveComponents data w sol).2.2.2 : ℚ)
        total := (((cpObjectiveComponents data w sol).1 +
          (cpObjectiveComponents data w sol).2.1 +
          (cpObjectiveComponents data w sol).2.2.1 +
          (cpObjectiveComponents data w sol).2.2.2 : ℤ) : ℚ) } := by
  obtain ⟨h_i, h_r, h_p⟩ := breakdown_fold_scalars data w sol ⟨0, 0, 0, [], []⟩ hres
  obtain ⟨hwf, hcount, hdays⟩ :=
    breakdown_fold_cluster data w sol ⟨0, 0, 0, [], []⟩ hres ⟨by simp, by simp⟩
  have hcount2 : ∀ tg,
      countsGet (sol.foldl (breakdownStep data w)
          ⟨0, 0, 0, [], []⟩).cluster_counts tg =
        clusterSessionCount (expand_course_sessions data.courses) tg := by
    intro tg
    rw [hcount tg, countP_tag_eq_clusterCount data sol hnodup hperm hres tg]
    simp [countsGet]
  have hdays2 : ∀ tg d,
      (d ∈ daysOf (sol.foldl (breakdownStep data w)
          ⟨0, 0, 0, [], []⟩).cluster_days tg) ↔
        (tg, d) ∈ sol.filterMap (tagDayOf data) := by
    intro tg d
    rw [hdays tg d]
    simp [daysOf]
  have hfinset : (clusterFlat
        (sol.foldl (breakdownStep data w) ⟨0, 0, 0, [], []⟩).cluster_days
        (sol.foldl (breakdownStep data w) ⟨0, 0, 0, [], []⟩).cluster_counts).toFinset =
      (sol.filterMap (cpClusterPair data)).toFinset := by
    ext x
    obtain ⟨tg, d⟩ := x
    simp only [List.mem_toFinset]
    rw [clusterFlat_mem _ _ hwf.1 tg d, mem_filterMap_cpClusterPair data sol tg d,
      hcount2 tg, hdays2 tg d]
    exact and_comm
  have hunits : (((sol.foldl (breakdownStep data w)
        ⟨0, 0, 0, [], []⟩).cluster_days.filter
        (fun p => countsGet (sol.foldl (breakdownStep data w)
          ⟨0, 0, 0, [], []⟩).cluster_counts p.1 > 1)).map
        (fun p => (p.2.length : ℤ))).sum =
      ((sol.filterMap (cpClusterPair data)).toFinset.card : ℤ) := by
    rw [← clusterFlat_length, ← hfinset,
      List.toFinset_card_of_nodup (clusterFlat_nodup _ _ hwf.1 hwf.2)]
  unfold compute_objective_breakdown cpObjectiveComponents
  dsimp only
  rw [ObjectiveBreakdown.mk.injEq]
  refine ⟨?_, ?_, ?_, ?_, ?_⟩
  · rw [h_i]; norm_num
  · rw [h_r]; norm_num
  · rw [h_p]; norm_num
  · rw [hunits]; push_cast; ring
  · rw [h_i, h_r, h_p, hunits]; push_cast; ring

/-- C4 witness: the breakdown/objective equivalence applied to a concrete
two-course input whose cluster tag is shared and spans two days. -/
theorem c4_objective_breakdown_matches_exact_witness :
    compute_objective_breakdown c4Data c4Sol c4W =
      { instructor_preference := ((cpObjectiveComponents c4Data c4W c4Sol).1 : ℚ)
        room_efficiency := ((cpObjectiveComponents c4Data c4W c4Sol).2.1 : ℚ)
        course_priority := ((cpObjectiveComponents c4Data c4W c4Sol).2.2.1 : ℚ)
        cluster_compactness :=
          ((cpObjectiveComponents c4Data c4W c4Sol).2.2.2 : ℚ)
        total := (((cpObjectiveComponents c4Data c4W c4Sol).1 +
          (cpObjectiveComponents c4Data c4W c4Sol).2.1 +
          (cpObjectiveComponents c4Data c4W c4Sol).2.2.1 +
          (cpObjectiveComponents c4Data c4W c4Sol).2.2.2 : ℤ) : ℚ) } := by
  refine c4_objective_breakdown_matches_exact c4Data c4W c4Sol (by decide)
    (by decide) ?_
  intro a ha
  rcases List.mem_cons.mp ha with h | h
  · subst h
    exact ⟨_, rfl, rfl, rfl, rfl, rfl⟩
  · rcases List.mem_cons.mp h with h2 | h2
    · subst h2
      exact ⟨_, rfl, rfl, rfl, rfl, rfl⟩
    · cases h2

end Sched
